import Mathlib

/-!
# history-storage: ring buffer and tiered store

A shallow embedding of `include/circular_buffer.hpp`, `include/history_entry.hpp`,
`include/disk_storage.hpp`, `include/history_storage.hpp`, `src/history_storage.cpp` and
the row encoding of `src/sqlite_disk_storage.cpp`, followed by theorems about the embedded
definitions.

Conventions of the embedding

* `size_t` values are natural numbers.  Every index the code computes stays below
  `2 * capacity`, and the counters only ever count calls, so 64-bit wrap-around is
  not reachable for any buffer that fits in memory.
* `std::time_t`, `steady_clock::time_point` and `std::chrono::seconds` are integers,
  time points and durations being counted in one common unit.
* A `std::unique_ptr<T>` slot is an `Option T`: `none` is the null pointer a slot holds
  before it is first written and after it has been moved from.
* A C++ exception is an explicit `Error` result.
* The watermarks are `double` in the source; here they are exact rationals, and the
  conversion `static_cast<size_t>(x)` is truncation toward zero.
* A `std::string` is its list of characters, a `double` payload its 64-bit pattern, and
  an `int` payload a 32-bit signed integer.
-/

namespace HistoryStorage

/-! ## Errors -/

/-- The failures the embedded code can raise. -/
inductive Error where
  /-- `std::runtime_error("Buffer is empty")` thrown by `CircularBuffer::pop`. -/
  | emptyBuffer
  /-- `std::out_of_range("Index out of range")` thrown by `CircularBuffer::at`. -/
  | indexOutOfRange
  /-- Dereference of a null slot in `CircularBuffer::at` (undefined behaviour in C++). -/
  | nullDereference
  /-- Any exception thrown by the persistent tier. -/
  | persistentTierFailure
  deriving DecidableEq, Repr

/-! ## `circular_buffer.hpp` -/

/-- The fields of `CircularBuffer<T>`: a backing vector of owning slots and the
`head`, `tail`, `size`, `capacity` counters. -/
structure CircularBuffer (T : Type) where
  buffer : List (Option T)
  head : Nat
  tail : Nat
  size : Nat
  capacity : Nat
  deriving DecidableEq, Repr

namespace CircularBuffer

variable {T : Type}

/-- The constructor `CircularBuffer(size_t cap)`: `cap` null slots, all counters zero. -/
def new (cap : Nat) : CircularBuffer T :=
  { buffer := List.replicate cap none, head := 0, tail := 0, size := 0, capacity := cap }

/-- The member `push`: on a full buffer the slot at `head` is overwritten and both
`head` and `tail` advance; otherwise the slot at `tail` is written, `tail` advances and
`size` grows by one. -/
def push (b : CircularBuffer T) (item : T) : CircularBuffer T :=
  if b.size = b.capacity then
    { b with
      buffer := b.buffer.set b.head (some item)
      head := (b.head + 1) % b.capacity
      tail := (b.tail + 1) % b.capacity }
  else
    { b with
      buffer := b.buffer.set b.tail (some item)
      tail := (b.tail + 1) % b.capacity
      size := b.size + 1 }

/-- The member `pop`: throws on an empty buffer (before touching any field); otherwise
moves the pointer out of the slot at `head` (leaving it null), advances `head`,
decrements `size` and returns the pointer. -/
def pop (b : CircularBuffer T) : Except Error (Option T × CircularBuffer T) :=
  if b.size = 0 then
    .error .emptyBuffer
  else
    .ok (b.buffer.getD b.head none,
      { b with
        buffer := b.buffer.set b.head none
        head := (b.head + 1) % b.capacity
        size := b.size - 1 })

/-- The member `at`: throws `out_of_range` when `index >= size`, otherwise dereferences
the slot `(head + index) % capacity`. -/
def atIndex (b : CircularBuffer T) (index : Nat) : Except Error T :=
  if index ≥ b.size then
    .error .indexOutOfRange
  else
    match b.buffer.getD ((b.head + index) % b.capacity) none with
    | some item => .ok item
    | none => .error .nullDereference

/-- The member `getSize`. -/
def getSize (b : CircularBuffer T) : Nat := b.size

/-- The member `getCapacity`. -/
def getCapacity (b : CircularBuffer T) : Nat := b.capacity

/-- The member `isEmpty`. -/
def isEmpty (b : CircularBuffer T) : Bool := b.size == 0

/-- The member `isFull`. -/
def isFull (b : CircularBuffer T) : Bool := b.size == b.capacity

/-- One call made by a client of the ring buffer. -/
inductive Op (T : Type) where
  | push (item : T)
  | pop
  deriving DecidableEq, Repr

/-- The buffer after one call.  A `pop` that throws leaves the buffer as it was. -/
def applyOp (b : CircularBuffer T) : Op T → CircularBuffer T
  | .push item => b.push item
  | .pop =>
    match b.pop with
    | .ok (_, b') => b'
    | .error _ => b

/-- The buffer after a sequence of calls, first call first. -/
def run (b : CircularBuffer T) (ops : List (Op T)) : CircularBuffer T :=
  ops.foldl applyOp b

/-- The slots of the live window, oldest first: slot `(head + i) % capacity` for
`i < size`. -/
def window (b : CircularBuffer T) : List (Option T) :=
  (List.range b.size).map fun i => b.buffer.getD ((b.head + i) % b.capacity) none

/-- The buffer `b` holds the queue `l` (oldest first): the counters are in range and the
slot `(head + i) % capacity` holds the `i`-th element of `l`. -/
structure Holds (b : CircularBuffer T) (l : List T) : Prop where
  cap_pos : 0 < b.capacity
  length_buffer : b.buffer.length = b.capacity
  head_lt : b.head < b.capacity
  tail_eq : b.tail = (b.head + b.size) % b.capacity
  size_eq : b.size = l.length
  size_le : b.size ≤ b.capacity
  slot : ∀ i (h : i < l.length),
    b.buffer.getD ((b.head + i) % b.capacity) none = some (l.get ⟨i, h⟩)

end CircularBuffer

/-! ## `history_entry.hpp` -/

/-- The payload of a `TypedHistoryEntry<T>` for the four instantiated `T`.  A `double`
is carried as its 64-bit pattern, a `std::string` as its sequence of characters. -/
inductive Value where
  | double (bits : Nat)
  | int (value : Int)
  | bool (value : Bool)
  | string (value : List Char)
  deriving DecidableEq, Repr

/-- A record: the `timestamp` and `value` fields of a `TypedHistoryEntry<T>`. -/
structure HistoryEntry where
  timestamp : Int
  value : Value
  deriving DecidableEq, Repr

namespace HistoryEntry

/-- The constant `STRING_SIZE` of the `std::string` specialisation. -/
def STRING_SIZE : Nat := 50

/-- The constructor of `TypedHistoryEntry<std::string>`: `val.substr(0, STRING_SIZE)`
followed by `resize(STRING_SIZE, ' ')`. -/
def mkString (ts : Int) (val : List Char) : HistoryEntry :=
  let value := val.take STRING_SIZE
  { timestamp := ts
    value := .string (value ++ List.replicate (STRING_SIZE - value.length) (Char.ofNat 32)) }

/-- The member `getTimestamp`. -/
def getTimestamp (e : HistoryEntry) : Int := e.timestamp

/-- The member `clone`: an independent copy with the same fields. -/
def clone (e : HistoryEntry) : HistoryEntry := e

/-- Modelled from the spec: the value of `sizeof(timestamp)`.  The platform fixes
`sizeof(std::time_t)` and the source does not state it; the spec counts 8 bytes for the
timestamp. -/
def sizeofTimestamp : Nat := 8

/-- The member `getSize`: `sizeof(timestamp) + sizeof(T)`, with `sizeof(double) = 8`,
`sizeof(int) = 4` and `sizeof(bool) = 1` as on the usual 64-bit platforms, and
`sizeof(timestamp) + STRING_SIZE` in the `std::string` specialisation. -/
def getSize (e : HistoryEntry) : Nat :=
  match e.value with
  | .double _ => sizeofTimestamp + 8
  | .int _ => sizeofTimestamp + 4
  | .bool _ => sizeofTimestamp + 1
  | .string _ => sizeofTimestamp + STRING_SIZE

/-- The records the four instantiated classes can hold: a `double` is a 64-bit pattern,
an `int` is a 32-bit signed integer, and the text of a `std::string` record has left its
constructor, so it has `STRING_SIZE` characters. -/
def Representable (e : HistoryEntry) : Prop :=
  match e.value with
  | .double bits => bits < 2 ^ 64
  | .int value => -(2 : Int) ^ 31 ≤ value ∧ value < (2 : Int) ^ 31
  | .bool _ => True
  | .string value => value.length = STRING_SIZE

end HistoryEntry

/-! ## `disk_storage.hpp` -/

/-- What a call that may throw leaves behind: the state after the call and the
exception that escaped it, if any. -/
structure Outcome (σ : Type) where
  state : σ
  thrown : Option Error

/-- The abstract class `DiskStorage` over a tier whose state has type `D`: `flush`
receives a batch (a vector of owning pointers) and either returns or throws;
`retrieve` answers a range query or throws. -/
structure DiskStorage (D : Type) where
  flush : D → List (Option HistoryEntry) → Outcome D
  retrieve : D → Int → Int → Except Error (List HistoryEntry)

/-! ## `history_storage.hpp`, `history_storage.cpp` -/

/-- The fields of `ConcreteHistoryStorage`.  `flushedBatches` is not a field of the C++
object: it records, in call order, the argument of every `diskStorage->flush` call the
store has made. -/
structure ConcreteHistoryStorage (D : Type) where
  ramBuffer : CircularBuffer HistoryEntry
  diskStorage : D
  lastFlushTime : Int
  entriesSinceLastFlush : Nat
  FLUSH_INTERVAL : Int
  totalFlushCount : Nat
  HIGH_WATERMARK : ℚ
  LOW_WATERMARK : ℚ
  flushedBatches : List (List (Option HistoryEntry))

namespace ConcreteHistoryStorage

variable {D : Type}

/-- The constructor; `now` is the value `steady_clock::now()` returns to it. -/
def new (ramCapacity : Nat) (disk : D) (flushInterval : Int)
    (highWatermark lowWatermark : ℚ) (now : Int) : ConcreteHistoryStorage D :=
  { ramBuffer := CircularBuffer.new ramCapacity
    diskStorage := disk
    lastFlushTime := now
    entriesSinceLastFlush := 0
    FLUSH_INTERVAL := flushInterval
    totalFlushCount := 0
    HIGH_WATERMARK := highWatermark
    LOW_WATERMARK := lowWatermark
    flushedBatches := [] }

/-- The member `isRamBufferNearlyFull`: `size >= capacity * HIGH_WATERMARK`. -/
def isRamBufferNearlyFull (s : ConcreteHistoryStorage D) : Bool :=
  decide ((s.ramBuffer.getSize : ℚ) ≥ (s.ramBuffer.getCapacity : ℚ) * s.HIGH_WATERMARK)

/-- The local `lowWatermarkSize` of `flush`:
`static_cast<size_t>(capacity * LOW_WATERMARK)`. -/
def lowWatermarkSize (s : ConcreteHistoryStorage D) : Nat :=
  Nat.floor ((s.ramBuffer.getCapacity : ℚ) * s.LOW_WATERMARK)

/-- The local `entriesaboutToFlush` of `flush`. -/
def entriesaboutToFlush (s : ConcreteHistoryStorage D) : Nat :=
  if s.ramBuffer.getSize > s.lowWatermarkSize then s.ramBuffer.getSize - s.lowWatermarkSize
  else 0

/-- The loop of `flush`, `n` being the iterations still allowed by the bound
`i < entriesaboutToFlush`: while the buffer is not empty, pop and append to the batch.
`pop` throws only on an empty buffer, which the loop guard excludes, so its error
branch is never entered. -/
def flushLoop : Nat → CircularBuffer HistoryEntry → List (Option HistoryEntry) →
    CircularBuffer HistoryEntry × List (Option HistoryEntry)
  | 0, b, entriesToFlush => (b, entriesToFlush)
  | n + 1, b, entriesToFlush =>
    if b.isEmpty then (b, entriesToFlush)
    else
      match b.pop with
      | .ok (item, b') => flushLoop n b' (entriesToFlush ++ [item])
      | .error _ => (b, entriesToFlush)

/-- The member `flush`.  The popped records leave the buffer before the tier is called;
`totalFlushCount` is incremented only when the tier call returns. -/
def flush (disk : DiskStorage D) (s : ConcreteHistoryStorage D) :
    Outcome (ConcreteHistoryStorage D) :=
  let popped := flushLoop s.entriesaboutToFlush s.ramBuffer []
  if popped.2.isEmpty then
    { state := { s with ramBuffer := popped.1 }, thrown := none }
  else
    let r := disk.flush s.diskStorage popped.2
    match r.thrown with
    | none =>
      { state := { s with
          ramBuffer := popped.1
          diskStorage := r.state
          flushedBatches := s.flushedBatches ++ [popped.2]
          totalFlushCount := s.totalFlushCount + 1 }
        thrown := none }
    | some e =>
      { state := { s with
          ramBuffer := popped.1
          diskStorage := r.state
          flushedBatches := s.flushedBatches ++ [popped.2] }
        thrown := some e }

/-- The first statement of `store`: `if (isRamBufferNearlyFull()) flush();`. -/
def flushIfNearlyFull (disk : DiskStorage D) (s : ConcreteHistoryStorage D) :
    Outcome (ConcreteHistoryStorage D) :=
  if s.isRamBufferNearlyFull then flush disk s else { state := s, thrown := none }

/-- The statements `ramBuffer.push(std::move(entry)); entriesSinceLastFlush++;`. -/
def pushEntry (s : ConcreteHistoryStorage D) (entry : HistoryEntry) :
    ConcreteHistoryStorage D :=
  { s with
    ramBuffer := s.ramBuffer.push entry
    entriesSinceLastFlush := s.entriesSinceLastFlush + 1 }

/-- The condition of the time trigger: `now - lastFlushTime >= FLUSH_INTERVAL`. -/
def flushIntervalElapsed (s : ConcreteHistoryStorage D) (now : Int) : Bool :=
  decide (now - s.lastFlushTime ≥ s.FLUSH_INTERVAL)

/-- The member `store`; `now` is the value `steady_clock::now()` returns to this call.
An exception from either `flush` call leaves `store` at that point.  The progress line
printed every 100 entries changes no field and is not modelled. -/
def store (disk : DiskStorage D) (s : ConcreteHistoryStorage D) (entry : HistoryEntry)
    (now : Int) : Outcome (ConcreteHistoryStorage D) :=
  let r1 := flushIfNearlyFull disk s
  match r1.thrown with
  | some e => { state := r1.state, thrown := some e }
  | none =>
    let s2 := pushEntry r1.state entry
    if s2.flushIntervalElapsed now then
      let r3 := flush disk s2
      match r3.thrown with
      | some e => { state := r3.state, thrown := some e }
      | none =>
        { state := { r3.state with lastFlushTime := now, entriesSinceLastFlush := 0 }
          thrown := none }
    else { state := s2, thrown := none }

/-- The loop of `retrieveFromRAM` over the indices still to visit: read `at(i)` and keep
a clone of the record when `start <= timestamp <= end`. -/
def retrieveFromRAMLoop (b : CircularBuffer HistoryEntry) (start finish : Int) :
    List Nat → Except Error (List HistoryEntry)
  | [] => .ok []
  | i :: rest =>
    match b.atIndex i with
    | .error e => .error e
    | .ok entry =>
      match retrieveFromRAMLoop b start finish rest with
      | .error e => .error e
      | .ok result =>
        if entry.getTimestamp ≥ start ∧ entry.getTimestamp ≤ finish then
          .ok (entry.clone :: result)
        else .ok result

/-- The member `retrieveFromRAM`: the loop over `i = 0 .. size - 1`. -/
def retrieveFromRAM (s : ConcreteHistoryStorage D) (start finish : Int) :
    Except Error (List HistoryEntry) :=
  retrieveFromRAMLoop s.ramBuffer start finish (List.range s.ramBuffer.getSize)

/-- The comparator handed to `std::sort` by `retrieve`. -/
def timestampLess (a b : HistoryEntry) : Bool :=
  decide (a.getTimestamp < b.getTimestamp)

/-- Insertion of one record into a sorted sequence, placed before the first record the
comparator puts after it. -/
def sortInsert (a : HistoryEntry) : List HistoryEntry → List HistoryEntry
  | [] => [a]
  | b :: rest => if timestampLess a b then a :: b :: rest else b :: sortInsert a rest

/-- The call `std::sort(allEntries.begin(), allEntries.end(), comp)`, run as an
insertion sort driven by the comparator.  `std::sort` leaves the relative order of
records with equal timestamps unspecified; this sort fixes one such order. -/
def stdSort : List HistoryEntry → List HistoryEntry
  | [] => []
  | a :: rest => sortInsert a (stdSort rest)

/-- The member `retrieve`: RAM results, then tier results, concatenated and sorted. -/
def retrieve (disk : DiskStorage D) (s : ConcreteHistoryStorage D) (start finish : Int) :
    Except Error (List HistoryEntry) :=
  match s.retrieveFromRAM start finish with
  | .error e => .error e
  | .ok ramEntries =>
    match disk.retrieve s.diskStorage start finish with
    | .error e => .error e
    | .ok diskEntries => .ok (stdSort (ramEntries ++ diskEntries))

/-- The member `getInRamCount`. -/
def getInRamCount (s : ConcreteHistoryStorage D) : Nat := s.ramBuffer.getSize

/-- The member `getFlushCount`. -/
def getFlushCount (s : ConcreteHistoryStorage D) : Nat := s.totalFlushCount

/-- One call made by a client of the store: `store(entry)` together with the clock value
that call reads, or `flush()`. -/
inductive Call where
  | store (entry : HistoryEntry) (now : Int)
  | flush
  deriving DecidableEq, Repr

/-- The store after one call, whether or not the call threw. -/
def applyCall (disk : DiskStorage D) (s : ConcreteHistoryStorage D) :
    Call → ConcreteHistoryStorage D
  | .store entry now => (store disk s entry now).state
  | .flush => (flush disk s).state

/-- The store after a sequence of calls, first call first. -/
def run (disk : DiskStorage D) (s : ConcreteHistoryStorage D) (calls : List Call) :
    ConcreteHistoryStorage D :=
  calls.foldl (applyCall disk) s

/-- A sequence of `store` calls, each record paired with the clock value its call reads. -/
def storeCalls (stores : List (HistoryEntry × Int)) : List Call :=
  stores.map fun p => Call.store p.1 p.2

/-- The store states a client can bring about: construct a store with a capacity of at
least one and make any sequence of `store` and `flush` calls. -/
def Reachable (disk : DiskStorage D) (s : ConcreteHistoryStorage D) : Prop :=
  ∃ (ramCapacity : Nat) (d : D) (flushInterval : Int) (highWatermark lowWatermark : ℚ)
    (now : Int) (calls : List Call),
    1 ≤ ramCapacity ∧
      s = run disk (new ramCapacity d flushInterval highWatermark lowWatermark now) calls

/-- The fields a call never changes. -/
structure SameConfig (s s' : ConcreteHistoryStorage D) : Prop where
  capacity : s'.ramBuffer.capacity = s.ramBuffer.capacity
  high : s'.HIGH_WATERMARK = s.HIGH_WATERMARK
  low : s'.LOW_WATERMARK = s.LOW_WATERMARK
  interval : s'.FLUSH_INTERVAL = s.FLUSH_INTERVAL

/-- What a run of `store` calls leaves behind when none of them flushes. -/
structure OnlyPushed (s s' : ConcreteHistoryStorage D) : Prop where
  config : SameConfig s s'
  disk : s'.diskStorage = s.diskStorage
  batches : s'.flushedBatches = s.flushedBatches
  count : s'.totalFlushCount = s.totalFlushCount
  time : s'.lastFlushTime = s.lastFlushTime

end ConcreteHistoryStorage

/-! ## `sqlite_disk_storage.cpp` -/

/-- A value held in the `value` column of the `history` table: a floating-point number
(as its 64-bit pattern), a 64-bit integer or a text. -/
inductive SqlValue where
  | real (bits : Nat)
  | integer (value : Int)
  | text (value : List Char)
  deriving DecidableEq, Repr

/-- A row of the `history` table without its `id`: the columns `timestamp`, `type` and
`value`. -/
structure Row where
  timestamp : Int
  type : String
  value : SqlValue
  deriving DecidableEq, Repr

/-- The characters a `const char *` denotes when it points at the characters `s` followed
by a terminator: those before the first zero character.  This is what
`sqlite3_bind_text(.., str.c_str(), -1, ..)` stores for the `std::string` `str` and what
`std::string(ptr)` builds from a `const char *`. -/
def cString (s : List Char) : List Char :=
  s.takeWhile fun c => decide (c ≠ Char.ofNat 0)

/-- The conversion of a stored 64-bit integer to the `int` that `sqlite3_column_int`
returns: its low 32 bits, read as a signed number. -/
def toInt32 (value : Int) : Int :=
  (value + 2 ^ 31) % 2 ^ 32 - 2 ^ 31

/-- The body of the loop of `SQLiteDiskStorage::flush`: the timestamp, the type tag and
the value bound to the insert statement for one entry.  The four `dynamic_cast` tests
are the four cases of `Value`. -/
def bindRow (entry : HistoryEntry) : Row :=
  match entry.value with
  | .double bits => { timestamp := entry.getTimestamp, type := "double", value := .real bits }
  | .int value => { timestamp := entry.getTimestamp, type := "int", value := .integer value }
  | .bool value =>
    { timestamp := entry.getTimestamp, type := "bool"
      value := .integer (if value then 1 else 0) }
  | .string value =>
    { timestamp := entry.getTimestamp, type := "string", value := .text (cString value) }

/-- What the body of the loop of `SQLiteDiskStorage::retrieve` makes of one row. -/
inductive Decoded where
  /-- The entry pushed onto `results`. -/
  | entry (e : HistoryEntry)
  /-- The exception `std::runtime_error("Unknown type in database")`. -/
  | unknownType
  /-- The value is not of the storage class the accessor reads, so SQLite would convert
  it; `flush` writes no such row and the conversion is not described here. -/
  | converted
  deriving DecidableEq, Repr

/-- The body of the loop of `SQLiteDiskStorage::retrieve`: dispatch on the type tag, read
the value with `sqlite3_column_double`, `sqlite3_column_int` or `sqlite3_column_text`, and
construct the entry. -/
def decodeRow (row : Row) : Decoded :=
  if row.type = "double" then
    match row.value with
    | .real bits => .entry { timestamp := row.timestamp, value := .double bits }
    | _ => .converted
  else if row.type = "int" then
    match row.value with
    | .integer value => .entry { timestamp := row.timestamp, value := .int (toInt32 value) }
    | _ => .converted
  else if row.type = "bool" then
    match row.value with
    | .integer value =>
      .entry { timestamp := row.timestamp, value := .bool (decide (toInt32 value ≠ 0)) }
    | _ => .converted
  else if row.type = "string" then
    match row.value with
    | .text value => .entry (HistoryEntry.mkString row.timestamp (cString value))
    | _ => .converted
  else .unknownType

/-- A text whose second character is the zero character. -/
def textWithZero : List Char := [Char.ofNat 97, Char.ofNat 0, Char.ofNat 98]

/-- A persistent tier that keeps every batch it is handed and never fails: its state is
the list of stored records, and a range query returns those with
`start <= timestamp <= end`. -/
def listDisk : DiskStorage (List HistoryEntry) where
  flush d batch := { state := d ++ batch.filterMap id, thrown := none }
  retrieve d start finish :=
    .ok (d.filter fun e => decide (start ≤ e.getTimestamp ∧ e.getTimestamp ≤ finish))

/-- The records of the end-to-end scenario: timestamps `1 .. n`, each stored by a call
that reads the clock as `0`. -/
def scenarioStores (n : Nat) : List (HistoryEntry × Int) :=
  (List.range n).map fun (i : Nat) => ({ timestamp := Int.ofNat i + 1, value := .int 0 }, 0)

/-- The store of the end-to-end scenario at construction: capacity 10, flush interval
3600, high watermark 0.8, low watermark 0.5, over the in-memory tier, clock at `0`. -/
def scenarioNew : ConcreteHistoryStorage (List HistoryEntry) :=
  ConcreteHistoryStorage.new 10 [] 3600 (4 / 5) (1 / 2) 0

/-- The store of the end-to-end scenario after its first eight `store` calls. -/
def scenarioStore : ConcreteHistoryStorage (List HistoryEntry) :=
  ConcreteHistoryStorage.run listDisk scenarioNew
    (ConcreteHistoryStorage.storeCalls (scenarioStores 8))

/-- A persistent tier without state whose `flush` and `retrieve` always throw. -/
def failingDisk : DiskStorage Unit where
  flush d _ := { state := d, thrown := some .persistentTierFailure }
  retrieve _ _ _ := .error .persistentTierFailure

/-- The store of the end-to-end scenario over the failing tier, after its first `n`
`store` calls. -/
def failingStore (n : Nat) : ConcreteHistoryStorage Unit :=
  ConcreteHistoryStorage.run failingDisk (ConcreteHistoryStorage.new 10 () 3600 (4 / 5) (1 / 2) 0)
    (ConcreteHistoryStorage.storeCalls (scenarioStores n))

/-- A store constructed with the two watermarks the wrong way round: high 0.5, low 0.8. -/
def swappedWatermarks : ConcreteHistoryStorage (List HistoryEntry) :=
  ConcreteHistoryStorage.new 10 [] 3600 (1 / 2) (4 / 5) 0

/-! ## The ring buffer as a queue -/

namespace CircularBuffer

variable {T : Type}

theorem getD_set_self {α : Type} (l : List α) (i : Nat) (a d : α) (h : i < l.length) :
    (l.set i a).getD i d = a := by
  simp [List.getD_eq_getElem?_getD, List.getElem?_set, h]

theorem getD_set_ne {α : Type} (l : List α) (i j : Nat) (a d : α) (h : i ≠ j) :
    (l.set i a).getD j d = l.getD j d := by
  simp [List.getD_eq_getElem?_getD, List.getElem?_set, h]

theorem add_mod_inj {c h i j : Nat} (hi : i < c) (hj : j < c)
    (e : (h + i) % c = (h + j) % c) : i = j := by
  have h1 : i ≡ j [MOD c] := Nat.ModEq.add_left_cancel' h e
  have h2 : i % c = j % c := h1
  rwa [Nat.mod_eq_of_lt hi, Nat.mod_eq_of_lt hj] at h2

theorem succ_mod_add (c h i : Nat) : ((h + 1) % c + i) % c = (h + (i + 1)) % c := by
  rw [Nat.mod_add_mod]; congr 1; omega

theorem holds_new (cap : Nat) (h : 0 < cap) : Holds (new cap : CircularBuffer T) [] where
  cap_pos := h
  length_buffer := by simp [new]
  head_lt := h
  tail_eq := by simp [new]
  size_eq := rfl
  size_le := Nat.zero_le _
  slot := fun i hi => absurd hi (Nat.not_lt_zero i)

theorem Holds.push_of_lt {b : CircularBuffer T} {l : List T} (hb : Holds b l)
    (hlt : b.size < b.capacity) (x : T) : Holds (b.push x) (l ++ [x]) := by
  have hne : b.size ≠ b.capacity := Nat.ne_of_lt hlt
  have htl : b.tail < b.capacity := by rw [hb.tail_eq]; exact Nat.mod_lt _ hb.cap_pos
  refine ⟨?_, ?_, ?_, ?_, ?_, ?_, ?_⟩
  · simpa [push, hne] using hb.cap_pos
  · simpa [push, hne] using hb.length_buffer
  · simpa [push, hne] using hb.head_lt
  · simp only [push, hne, if_false]
    rw [hb.tail_eq, Nat.mod_add_mod]; rfl
  · simp only [push, hne, if_false]
    rw [hb.size_eq]; simp
  · simpa [push, hne] using hlt
  · intro i hi
    simp only [push, hne, if_false]
    have hi' : i < l.length + 1 := by simpa using hi
    by_cases hil : i < l.length
    · have hsz : i < b.size := by rw [hb.size_eq]; exact hil
      have hneq : b.tail ≠ (b.head + i) % b.capacity := by
        rw [hb.tail_eq]
        intro e
        have := add_mod_inj hlt (Nat.lt_trans hsz hlt) e
        omega
      rw [getD_set_ne _ _ _ _ _ hneq, hb.slot i hil]
      simp [List.getElem_append_left, hil]
    · have hieq : i = l.length := by omega
      subst hieq
      have : (b.head + l.length) % b.capacity = b.tail := by rw [hb.tail_eq, hb.size_eq]
      rw [this, getD_set_self _ _ _ _ (by rw [hb.length_buffer]; exact htl)]
      simp

theorem Holds.push_of_full {b : CircularBuffer T} {l : List T} (hb : Holds b l)
    (hfull : b.size = b.capacity) (x : T) : Holds (b.push x) (l.tail ++ [x]) := by
  have hc := hb.cap_pos
  have hlen : l.length = b.capacity := by rw [← hb.size_eq, hfull]
  rcases l with _ | ⟨a, l⟩
  · simp at hlen; omega
  simp only [List.tail_cons]
  simp only [List.length_cons] at hlen
  refine ⟨?_, ?_, ?_, ?_, ?_, ?_, ?_⟩
  · simpa [push, hfull] using hb.cap_pos
  · simpa [push, hfull] using hb.length_buffer
  · simp only [push, hfull, if_true]; exact Nat.mod_lt _ hc
  · simp only [push, hfull, if_true]
    rw [hb.tail_eq, hfull, Nat.mod_add_mod, Nat.mod_add_mod]; congr 1; omega
  · simp only [push, hfull, if_true]
    rw [← hlen]; simp
  · simp [push, hfull]
  · intro i hi
    simp only [push, hfull, if_true]
    have hi' : i < b.capacity := by
      have : i < l.length + 1 := by simpa using hi
      omega
    rw [succ_mod_add]
    by_cases hil : i + 1 < b.capacity
    · have hneq : b.head ≠ (b.head + (i + 1)) % b.capacity := by
        intro e
        have e' : (b.head + 0) % b.capacity = (b.head + (i + 1)) % b.capacity := by
          rw [Nat.add_zero, Nat.mod_eq_of_lt hb.head_lt]; exact e
        have := add_mod_inj hc hil e'
        omega
      rw [getD_set_ne _ _ _ _ _ hneq, hb.slot (i + 1) (by simp; omega)]
      have h1 : i < l.length := by omega
      simp [List.getElem_append_left, h1]
    · have hieq : i + 1 = b.capacity := by omega
      have : (b.head + (i + 1)) % b.capacity = b.head := by
        rw [hieq, Nat.add_mod_right, Nat.mod_eq_of_lt hb.head_lt]
      rw [this, getD_set_self _ _ _ _ (by rw [hb.length_buffer]; exact hb.head_lt)]
      have h2 : l.length = i := by omega
      simp [List.getElem_append_right, h2]

theorem Holds.pop_cons {b : CircularBuffer T} {x : T} {l : List T} (hb : Holds b (x :: l)) :
    ∃ b', b.pop = .ok (some x, b') ∧ Holds b' l := by
  have hc := hb.cap_pos
  have hsz : b.size = l.length + 1 := by simpa using hb.size_eq
  have hne : b.size ≠ 0 := by omega
  have h0 : b.buffer.getD b.head none = some x := by
    have := hb.slot 0 (by simp)
    simpa [Nat.mod_eq_of_lt hb.head_lt] using this
  refine ⟨{ b with
      buffer := b.buffer.set b.head none
      head := (b.head + 1) % b.capacity
      size := b.size - 1 }, by simp only [pop, hne, if_false, h0], ?_⟩
  refine ⟨hc, ?_, Nat.mod_lt _ hc, ?_, ?_, ?_, ?_⟩
  · simpa using hb.length_buffer
  · show b.tail = ((b.head + 1) % b.capacity + (b.size - 1)) % b.capacity
    rw [hb.tail_eq, Nat.mod_add_mod]; congr 1; omega
  · show b.size - 1 = l.length
    omega
  · show b.size - 1 ≤ b.capacity
    have := hb.size_le; omega
  · intro i hi
    show (b.buffer.set b.head none).getD (((b.head + 1) % b.capacity + i) % b.capacity) none = _
    rw [succ_mod_add]
    have hle := hb.size_le
    have hneq : b.head ≠ (b.head + (i + 1)) % b.capacity := by
      intro e
      have e' : (b.head + 0) % b.capacity = (b.head + (i + 1)) % b.capacity := by
        rw [Nat.add_zero, Nat.mod_eq_of_lt hb.head_lt]; exact e
      have := add_mod_inj hc (by omega) e'
      omega
    rw [getD_set_ne _ _ _ _ _ hneq, hb.slot (i + 1) (by simp; omega)]
    simp

theorem Holds.atIndex_lt {b : CircularBuffer T} {l : List T} (hb : Holds b l) (i : Nat)
    (h : i < l.length) : b.atIndex i = .ok (l.get ⟨i, h⟩) := by
  have : ¬ i ≥ b.size := by rw [hb.size_eq]; omega
  simp only [atIndex, this, if_false, hb.slot i h]

theorem Holds.atIndex_ge {b : CircularBuffer T} {l : List T} (hb : Holds b l) (i : Nat)
    (h : l.length ≤ i) : b.atIndex i = .error .indexOutOfRange := by
  have : i ≥ b.size := by rw [hb.size_eq]; exact h
  simp only [atIndex, this, if_true]

theorem Holds.window_eq {b : CircularBuffer T} {l : List T} (hb : Holds b l) :
    b.window = l.map some := by
  apply List.ext_get
  · simp [window, hb.size_eq]
  · intro i h1 h2
    have hi : i < l.length := by simpa using h2
    have := hb.slot i hi
    simpa [window, List.getD_eq_getElem?_getD] using this

end CircularBuffer

namespace CircularBuffer

variable {T : Type}

theorem Holds.after_applyOp {b : CircularBuffer T} {l : List T} (hb : Holds b l) (op : Op T) :
    ∃ l', Holds (b.applyOp op) l' := by
  cases op with
  | push item =>
    by_cases hfull : b.size = b.capacity
    · exact ⟨_, hb.push_of_full hfull item⟩
    · exact ⟨_, hb.push_of_lt (Nat.lt_of_le_of_ne hb.size_le hfull) item⟩
  | pop =>
    cases l with
    | nil =>
      have h0 : b.size = 0 := by simpa using hb.size_eq
      exact ⟨[], by simpa [CircularBuffer.applyOp, pop, h0] using hb⟩
    | cons x l =>
      obtain ⟨b', hpop, hb'⟩ := hb.pop_cons
      exact ⟨l, by simpa [CircularBuffer.applyOp, hpop] using hb'⟩

theorem Holds.after_run {b : CircularBuffer T} {l : List T} (hb : Holds b l) (ops : List (Op T)) :
    ∃ l', Holds (b.run ops) l' := by
  induction ops generalizing b l with
  | nil => exact ⟨l, hb⟩
  | cons op ops ih =>
    obtain ⟨l1, h1⟩ := hb.after_applyOp op
    exact ih h1

theorem applyOp_capacity (b : CircularBuffer T) (op : Op T) :
    (b.applyOp op).capacity = b.capacity := by
  cases op with
  | push item => simp only [applyOp, push]; split <;> rfl
  | pop =>
    by_cases h : b.size = 0
    · simp [applyOp, pop, h]
    · simp [applyOp, pop, h]

theorem run_capacity (b : CircularBuffer T) (ops : List (Op T)) :
    (b.run ops).capacity = b.capacity := by
  induction ops generalizing b with
  | nil => rfl
  | cons op ops ih =>
    show ((b.applyOp op).run ops).capacity = _
    rw [ih, applyOp_capacity]

theorem Holds.after_pushes {b : CircularBuffer T} {l : List T} (hb : Holds b l) (items : List T)
    (h : l.length + items.length ≤ b.capacity) :
    Holds (b.run (items.map Op.push)) (l ++ items) := by
  induction items generalizing b l with
  | nil => simpa [CircularBuffer.run] using hb
  | cons x items ih =>
    have hlt : b.size < b.capacity := by
      rw [hb.size_eq]; simp at h; omega
    have h1 := hb.push_of_lt hlt x
    have hcap : (b.push x).capacity = b.capacity := applyOp_capacity b (.push x)
    have := ih h1 (by rw [hcap]; simp at h ⊢; omega)
    simpa [CircularBuffer.run, CircularBuffer.applyOp] using this

end CircularBuffer

/-! ## The store over a buffer that holds a queue -/

namespace ConcreteHistoryStorage

open CircularBuffer

variable {D : Type}

theorem flushLoop_holds (n : Nat) {b : CircularBuffer HistoryEntry} {l : List HistoryEntry}
    (hb : Holds b l) (acc : List (Option HistoryEntry)) :
    (flushLoop n b acc).2 = acc ++ (l.take n).map some ∧
      Holds (flushLoop n b acc).1 (l.drop n) := by
  induction n generalizing b l acc with
  | zero => simpa [flushLoop] using hb
  | succ n ih =>
    cases l with
    | nil =>
      have h0 : b.size = 0 := by simpa using hb.size_eq
      simpa [flushLoop, isEmpty, h0] using hb
    | cons x l =>
      have hne : b.size ≠ 0 := by
        have := hb.size_eq
        simp at this; omega
      obtain ⟨b', hpop, hb'⟩ := hb.pop_cons
      have := ih hb' (acc ++ [some x])
      simpa [flushLoop, isEmpty, hne, hpop] using this

theorem entriesaboutToFlush_eq (s : ConcreteHistoryStorage D) :
    s.entriesaboutToFlush = s.ramBuffer.size - s.lowWatermarkSize := by
  unfold entriesaboutToFlush getSize
  split <;> omega

theorem flush_ramBuffer (disk : DiskStorage D) (s : ConcreteHistoryStorage D) :
    (flush disk s).state.ramBuffer = (flushLoop s.entriesaboutToFlush s.ramBuffer []).1 := by
  unfold flush
  simp only []
  split
  · rfl
  · split <;> rfl

theorem flush_flushedBatches (disk : DiskStorage D) (s : ConcreteHistoryStorage D) :
    (flush disk s).state.flushedBatches =
      if (flushLoop s.entriesaboutToFlush s.ramBuffer []).2.isEmpty then s.flushedBatches
      else s.flushedBatches ++ [(flushLoop s.entriesaboutToFlush s.ramBuffer []).2] := by
  unfold flush
  simp only []
  split
  · rfl
  · split <;> rfl

theorem flush_config (disk : DiskStorage D) (s : ConcreteHistoryStorage D) :
    (flush disk s).state.HIGH_WATERMARK = s.HIGH_WATERMARK ∧
    (flush disk s).state.LOW_WATERMARK = s.LOW_WATERMARK ∧
    (flush disk s).state.FLUSH_INTERVAL = s.FLUSH_INTERVAL ∧
    (flush disk s).state.lastFlushTime = s.lastFlushTime ∧
    (flush disk s).state.entriesSinceLastFlush = s.entriesSinceLastFlush := by
  unfold flush
  simp only []
  split
  · exact ⟨rfl, rfl, rfl, rfl, rfl⟩
  · split <;> exact ⟨rfl, rfl, rfl, rfl, rfl⟩

theorem flush_of_nothing (disk : DiskStorage D) (s : ConcreteHistoryStorage D)
    (h : s.entriesaboutToFlush = 0) : flush disk s = { state := s, thrown := none } := by
  unfold flush
  simp [h, flushLoop]

theorem flush_thrown (disk : DiskStorage D)
    (s : ConcreteHistoryStorage D)
    (hdisk : ∀ batch, (disk.flush s.diskStorage batch).thrown = none) :
    (flush disk s).thrown = none := by
  unfold flush
  simp only []
  split
  · rfl
  · rw [hdisk]

theorem flush_totalFlushCount (disk : DiskStorage D)
    (s : ConcreteHistoryStorage D)
    (hdisk : ∀ batch, (disk.flush s.diskStorage batch).thrown = none) :
    (flush disk s).state.totalFlushCount =
      if (flushLoop s.entriesaboutToFlush s.ramBuffer []).2.isEmpty then s.totalFlushCount
      else s.totalFlushCount + 1 := by
  unfold flush
  simp only []
  split
  · rfl
  · rw [hdisk]

/-- The number of records `flush` takes from a buffer holding `l`. -/
theorem flush_batch {s : ConcreteHistoryStorage D} {l : List HistoryEntry}
    (hb : Holds s.ramBuffer l) :
    (flushLoop s.entriesaboutToFlush s.ramBuffer []).2 =
      (l.take (l.length - s.lowWatermarkSize)).map some ∧
    Holds (flushLoop s.entriesaboutToFlush s.ramBuffer []).1
      (l.drop (l.length - s.lowWatermarkSize)) := by
  have h := flushLoop_holds s.entriesaboutToFlush hb []
  have e : s.entriesaboutToFlush = l.length - s.lowWatermarkSize := by
    rw [entriesaboutToFlush_eq, hb.size_eq]
  rw [e] at h ⊢
  simpa using h

theorem flush_holds (disk : DiskStorage D) {s : ConcreteHistoryStorage D}
    {l : List HistoryEntry} (hb : Holds s.ramBuffer l) :
    Holds (flush disk s).state.ramBuffer (l.drop (l.length - s.lowWatermarkSize)) := by
  rw [flush_ramBuffer]; exact (flush_batch hb).2

theorem flush_batches_of_holds (disk : DiskStorage D) {s : ConcreteHistoryStorage D}
    {l : List HistoryEntry} (hb : Holds s.ramBuffer l) :
    (flush disk s).state.flushedBatches =
      if l.length - s.lowWatermarkSize = 0 then s.flushedBatches
      else s.flushedBatches ++ [(l.take (l.length - s.lowWatermarkSize)).map some] := by
  rw [flush_flushedBatches, (flush_batch hb).1]
  by_cases hk : l.length - s.lowWatermarkSize = 0
  · simp [hk]
  · have : l ≠ [] := by
      intro h; subst h; simp at hk
    have h2 : ¬ (l.length ≤ s.lowWatermarkSize) := by omega
    simp [hk, this, h2]

end ConcreteHistoryStorage

namespace ConcreteHistoryStorage

open CircularBuffer

variable {D : Type}

theorem push_capacity {T : Type} (b : CircularBuffer T) (x : T) :
    (b.push x).capacity = b.capacity := applyOp_capacity b (.push x)

theorem flushLoop_capacity (n : Nat) (b : CircularBuffer HistoryEntry)
    (acc : List (Option HistoryEntry)) : (flushLoop n b acc).1.capacity = b.capacity := by
  induction n generalizing b acc with
  | zero => rfl
  | succ n ih =>
    by_cases h : b.size = 0
    · simp [flushLoop, isEmpty, h]
    · simp [flushLoop, isEmpty, h, pop, ih]

theorem flush_capacity (disk : DiskStorage D) (s : ConcreteHistoryStorage D) :
    (flush disk s).state.ramBuffer.capacity = s.ramBuffer.capacity := by
  rw [flush_ramBuffer, flushLoop_capacity]

theorem lowWatermarkSize_congr {s s' : ConcreteHistoryStorage D}
    (hc : s'.ramBuffer.capacity = s.ramBuffer.capacity)
    (hl : s'.LOW_WATERMARK = s.LOW_WATERMARK) : s'.lowWatermarkSize = s.lowWatermarkSize := by
  simp [lowWatermarkSize, getCapacity, hc, hl]

theorem SameConfig.refl (s : ConcreteHistoryStorage D) : SameConfig s s :=
  ⟨rfl, rfl, rfl, rfl⟩

theorem SameConfig.trans {s s' s'' : ConcreteHistoryStorage D} (h : SameConfig s s')
    (h' : SameConfig s' s'') : SameConfig s s'' :=
  ⟨h'.capacity.trans h.capacity, h'.high.trans h.high, h'.low.trans h.low,
    h'.interval.trans h.interval⟩

theorem SameConfig.lowWatermarkSize_eq {s s' : ConcreteHistoryStorage D} (h : SameConfig s s') :
    s'.lowWatermarkSize = s.lowWatermarkSize :=
  lowWatermarkSize_congr h.capacity h.low

theorem flush_sameConfig (disk : DiskStorage D) (s : ConcreteHistoryStorage D) :
    SameConfig s (flush disk s).state :=
  ⟨flush_capacity disk s, (flush_config disk s).1, (flush_config disk s).2.1,
    (flush_config disk s).2.2.1⟩

theorem flushIfNearlyFull_sameConfig (disk : DiskStorage D) (s : ConcreteHistoryStorage D) :
    SameConfig s (flushIfNearlyFull disk s).state := by
  unfold flushIfNearlyFull
  split
  · exact flush_sameConfig disk s
  · exact SameConfig.refl s

theorem pushEntry_sameConfig (s : ConcreteHistoryStorage D) (e : HistoryEntry) :
    SameConfig s (pushEntry s e) :=
  ⟨push_capacity _ _, rfl, rfl, rfl⟩

theorem store_sameConfig (disk : DiskStorage D) (s : ConcreteHistoryStorage D)
    (e : HistoryEntry) (now : Int) : SameConfig s (store disk s e now).state := by
  have h1 := flushIfNearlyFull_sameConfig disk s
  have h2 := pushEntry_sameConfig (flushIfNearlyFull disk s).state e
  have h3 := flush_sameConfig disk (pushEntry (flushIfNearlyFull disk s).state e)
  unfold store
  simp only []
  split
  · exact h1
  · split
    · split
      · exact (h1.trans h2).trans h3
      · exact ⟨((h1.trans h2).trans h3).capacity, ((h1.trans h2).trans h3).high,
          ((h1.trans h2).trans h3).low, ((h1.trans h2).trans h3).interval⟩
    · exact h1.trans h2

theorem applyCall_sameConfig (disk : DiskStorage D) (s : ConcreteHistoryStorage D)
    (c : Call) : SameConfig s (applyCall disk s c) := by
  cases c with
  | store e now => exact store_sameConfig disk s e now
  | flush => exact flush_sameConfig disk s

theorem run_sameConfig (disk : DiskStorage D) (s : ConcreteHistoryStorage D)
    (calls : List Call) : SameConfig s (run disk s calls) := by
  induction calls generalizing s with
  | nil => exact SameConfig.refl s
  | cons c calls ih => exact (applyCall_sameConfig disk s c).trans (ih (applyCall disk s c))

theorem flushIfNearlyFull_holds (disk : DiskStorage D) {s : ConcreteHistoryStorage D}
    {l : List HistoryEntry} (hb : Holds s.ramBuffer l) :
    ∃ l', Holds (flushIfNearlyFull disk s).state.ramBuffer l' := by
  unfold flushIfNearlyFull
  split
  · exact ⟨_, flush_holds disk hb⟩
  · exact ⟨l, hb⟩

theorem pushEntry_holds {s : ConcreteHistoryStorage D} {l : List HistoryEntry}
    (hb : Holds s.ramBuffer l) (e : HistoryEntry) :
    ∃ l', Holds (pushEntry s e).ramBuffer l' :=
  hb.after_applyOp (.push e)

theorem store_holds (disk : DiskStorage D) {s : ConcreteHistoryStorage D}
    {l : List HistoryEntry} (hb : Holds s.ramBuffer l) (e : HistoryEntry) (now : Int) :
    ∃ l', Holds (store disk s e now).state.ramBuffer l' := by
  obtain ⟨l1, h1⟩ := flushIfNearlyFull_holds disk hb
  obtain ⟨l2, h2⟩ := pushEntry_holds h1 e
  have h3 := flush_holds disk h2
  unfold store
  simp only []
  split
  · exact ⟨l1, h1⟩
  · split
    · split
      · exact ⟨_, h3⟩
      · exact ⟨_, h3⟩
    · exact ⟨l2, h2⟩

theorem run_holds (disk : DiskStorage D) {s : ConcreteHistoryStorage D}
    {l : List HistoryEntry} (hb : Holds s.ramBuffer l) (calls : List Call) :
    ∃ l', Holds (run disk s calls).ramBuffer l' := by
  induction calls generalizing s l with
  | nil => exact ⟨l, hb⟩
  | cons c calls ih =>
    cases c with
    | store e now =>
      obtain ⟨l1, h1⟩ := store_holds disk hb e now
      exact ih h1
    | flush => exact ih (flush_holds disk hb)

theorem Reachable.holds {disk : DiskStorage D} {s : ConcreteHistoryStorage D}
    (h : Reachable disk s) : ∃ l, Holds s.ramBuffer l := by
  obtain ⟨cap, d, fi, high, low, now, calls, hcap, rfl⟩ := h
  exact run_holds disk (holds_new cap hcap) calls

end ConcreteHistoryStorage

namespace ConcreteHistoryStorage

open CircularBuffer

variable {D : Type}

theorem flush_conserves (disk : DiskStorage D) {s : ConcreteHistoryStorage D}
    {l : List HistoryEntry} (hb : Holds s.ramBuffer l) :
    (flush disk s).state.flushedBatches.flatten ++
        (l.drop (l.length - s.lowWatermarkSize)).map some =
      s.flushedBatches.flatten ++ l.map some := by
  rw [flush_batches_of_holds disk hb]
  by_cases hk : l.length - s.lowWatermarkSize = 0
  · simp [hk]
  · simp only [hk, if_false, List.flatten_append, List.flatten_cons, List.flatten_nil,
      List.append_nil, List.append_assoc, ← List.map_append, List.take_append_drop]

theorem retrieveFromRAMLoop_holds {b : CircularBuffer HistoryEntry} {l : List HistoryEntry}
    (hb : Holds b l) (start finish : Int) (n k : Nat) (h : k + n = l.length) :
    retrieveFromRAMLoop b start finish (List.range' k n) =
      .ok ((l.drop k).filter fun e =>
        decide (start ≤ e.getTimestamp ∧ e.getTimestamp ≤ finish)) := by
  induction n generalizing k with
  | zero =>
    have : l.length ≤ k := by omega
    simp [retrieveFromRAMLoop, List.drop_eq_nil_of_le this]
  | succ n ih =>
    have hk : k < l.length := by omega
    have hat := hb.atIndex_lt k hk
    rw [List.range'_succ, retrieveFromRAMLoop, hat]
    simp only []
    rw [ih (k + 1) (by omega), List.drop_eq_getElem_cons hk, List.filter_cons]
    simp only [List.get_eq_getElem, HistoryEntry.clone, ge_iff_le]
    by_cases hp : start ≤ l[k].getTimestamp ∧ l[k].getTimestamp ≤ finish
    · simp [hp]
    · simp [hp]

theorem retrieveFromRAM_holds {s : ConcreteHistoryStorage D} {l : List HistoryEntry}
    (hb : Holds s.ramBuffer l) (start finish : Int) :
    s.retrieveFromRAM start finish =
      .ok (l.filter fun e => decide (start ≤ e.getTimestamp ∧ e.getTimestamp ≤ finish)) := by
  unfold retrieveFromRAM
  rw [List.range_eq_range', getSize, hb.size_eq,
    retrieveFromRAMLoop_holds hb start finish l.length 0 (by omega)]
  simp

theorem sortInsert_perm (a : HistoryEntry) (l : List HistoryEntry) :
    (sortInsert a l).Perm (a :: l) := by
  induction l with
  | nil => exact List.Perm.refl _
  | cons b rest ih =>
    unfold sortInsert
    split
    · exact List.Perm.refl _
    · exact (List.Perm.cons b ih).trans (List.Perm.swap a b rest)

theorem stdSort_perm (l : List HistoryEntry) : (stdSort l).Perm l := by
  induction l with
  | nil => exact List.Perm.refl _
  | cons a rest ih => exact (sortInsert_perm a _).trans (List.Perm.cons a ih)

theorem sortInsert_sorted (a : HistoryEntry) (l : List HistoryEntry)
    (h : l.Sorted fun x y => x.getTimestamp ≤ y.getTimestamp) :
    (sortInsert a l).Sorted fun x y => x.getTimestamp ≤ y.getTimestamp := by
  induction l with
  | nil => simp [sortInsert]
  | cons b rest ih =>
    obtain ⟨hb, hrest⟩ := List.sorted_cons.mp h
    unfold sortInsert
    by_cases hlt : a.getTimestamp < b.getTimestamp
    · simp only [timestampLess, hlt, decide_True, if_true]
      refine List.sorted_cons.mpr ⟨?_, h⟩
      intro c hc
      rcases List.mem_cons.mp hc with rfl | hc
      · exact Int.le_of_lt hlt
      · exact Int.le_trans (Int.le_of_lt hlt) (hb c hc)
    · simp only [timestampLess, hlt, decide_False]
      refine List.sorted_cons.mpr ⟨?_, ih hrest⟩
      intro c hc
      rcases List.mem_cons.mp ((sortInsert_perm a rest).subset hc) with rfl | hc
      · exact Int.not_lt.mp hlt
      · exact hb c hc

theorem stdSort_sorted (l : List HistoryEntry) :
    (stdSort l).Sorted fun x y => x.getTimestamp ≤ y.getTimestamp := by
  induction l with
  | nil => simp [stdSort]
  | cons a rest ih => exact sortInsert_sorted a _ ih

end ConcreteHistoryStorage

namespace ConcreteHistoryStorage

open CircularBuffer

variable {D : Type}

theorem store_of_not_elapsed (disk : DiskStorage D) (s : ConcreteHistoryStorage D)
    (e : HistoryEntry) (now : Int) (h1 : (flushIfNearlyFull disk s).thrown = none)
    (h2 : (pushEntry (flushIfNearlyFull disk s).state e).flushIntervalElapsed now = false) :
    store disk s e now =
      { state := pushEntry (flushIfNearlyFull disk s).state e, thrown := none } := by
  simp [store, h1, h2]

theorem store_of_elapsed (disk : DiskStorage D) (s : ConcreteHistoryStorage D)
    (e : HistoryEntry) (now : Int) (h1 : (flushIfNearlyFull disk s).thrown = none)
    (h2 : (pushEntry (flushIfNearlyFull disk s).state e).flushIntervalElapsed now = true)
    (h3 : (flush disk (pushEntry (flushIfNearlyFull disk s).state e)).thrown = none) :
    store disk s e now =
      { state :=
          { (flush disk (pushEntry (flushIfNearlyFull disk s).state e)).state with
            lastFlushTime := now, entriesSinceLastFlush := 0 }
        thrown := none } := by
  simp [store, h1, h2, h3]

theorem store_no_flush (disk : DiskStorage D) (s : ConcreteHistoryStorage D)
    (e : HistoryEntry) (now : Int) (h1 : s.isRamBufferNearlyFull = false)
    (h2 : (pushEntry s e).flushIntervalElapsed now = false) :
    store disk s e now = { state := pushEntry s e, thrown := none } := by
  simp [store, flushIfNearlyFull, h1, h2]

theorem lowWatermarkSize_lt_capacity (s : ConcreteHistoryStorage D)
    (hcap : 0 < s.ramBuffer.capacity) (hlow : s.LOW_WATERMARK < 1) :
    s.lowWatermarkSize < s.ramBuffer.capacity := by
  unfold lowWatermarkSize getCapacity
  rw [Nat.floor_lt' (Nat.pos_iff_ne_zero.mp hcap)]
  have hc : (0 : ℚ) < (s.ramBuffer.capacity : ℚ) := by exact_mod_cast hcap
  nlinarith

theorem size_lt_of_not_nearlyFull (s : ConcreteHistoryStorage D)
    (hhigh : s.HIGH_WATERMARK ≤ 1) (h : s.isRamBufferNearlyFull = false) :
    s.ramBuffer.size < s.ramBuffer.capacity := by
  simp only [isRamBufferNearlyFull, getSize, getCapacity, decide_eq_false_iff_not, not_le,
    ge_iff_le] at h
  have hc : (0 : ℚ) ≤ (s.ramBuffer.capacity : ℚ) := by positivity
  have : (s.ramBuffer.size : ℚ) < (s.ramBuffer.capacity : ℚ) := by nlinarith
  exact_mod_cast this

/-- The first statement of `store` over a buffer holding `l`, with a tier that does not
fail: the batches handed over so far followed by the buffer still make up the same
sequence, and the buffer is left with room for one more record. -/
theorem flushIfNearlyFull_spec (disk : DiskStorage D)
    (hdisk : ∀ d batch, (disk.flush d batch).thrown = none)
    {s : ConcreteHistoryStorage D} {l : List HistoryEntry} (hb : Holds s.ramBuffer l)
    (hlow : s.LOW_WATERMARK < 1) (hhigh : s.HIGH_WATERMARK ≤ 1) :
    (flushIfNearlyFull disk s).thrown = none ∧
    ∃ l1, Holds (flushIfNearlyFull disk s).state.ramBuffer l1 ∧
      l1.length < s.ramBuffer.capacity ∧
      (flushIfNearlyFull disk s).state.flushedBatches.flatten ++ l1.map some =
        s.flushedBatches.flatten ++ l.map some := by
  unfold flushIfNearlyFull
  by_cases hn : s.isRamBufferNearlyFull = true
  · simp only [hn, if_true]
    refine ⟨flush_thrown disk s (hdisk _), _, flush_holds disk hb, ?_, flush_conserves disk hb⟩
    have := lowWatermarkSize_lt_capacity s hb.cap_pos hlow
    simp only [List.length_drop]
    omega
  · have hn' : s.isRamBufferNearlyFull = false := by simpa using hn
    simp only [hn', Bool.false_eq_true, if_false]
    refine ⟨trivial, l, hb, ?_, rfl⟩
    rw [← hb.size_eq]
    exact size_lt_of_not_nearlyFull s hhigh hn'

/-- One `store` call over a buffer holding `l`, with a tier that does not fail: the call
returns, its push finds room, and the batches handed over followed by the buffer make up
the previous sequence followed by the new record. -/
theorem store_conserves (disk : DiskStorage D)
    (hdisk : ∀ d batch, (disk.flush d batch).thrown = none)
    {s : ConcreteHistoryStorage D} {l : List HistoryEntry} (hb : Holds s.ramBuffer l)
    (hlow : s.LOW_WATERMARK < 1) (hhigh : s.HIGH_WATERMARK ≤ 1)
    (e : HistoryEntry) (now : Int) :
    (store disk s e now).thrown = none ∧
    ∃ l', Holds (store disk s e now).state.ramBuffer l' ∧
      (store disk s e now).state.flushedBatches.flatten ++ l'.map some =
        s.flushedBatches.flatten ++ l.map some ++ [some e] := by
  obtain ⟨h1, l1, hb1, hlen1, hcons1⟩ := flushIfNearlyFull_spec disk hdisk hb hlow hhigh
  have hcfg := flushIfNearlyFull_sameConfig disk s
  have hlt : (flushIfNearlyFull disk s).state.ramBuffer.size <
      (flushIfNearlyFull disk s).state.ramBuffer.capacity := by
    rw [hb1.size_eq, hcfg.capacity]; exact hlen1
  have hb2 : Holds (pushEntry (flushIfNearlyFull disk s).state e).ramBuffer (l1 ++ [e]) :=
    hb1.push_of_lt hlt e
  have hcons2 : (pushEntry (flushIfNearlyFull disk s).state e).flushedBatches.flatten ++
      (l1 ++ [e]).map some = s.flushedBatches.flatten ++ l.map some ++ [some e] := by
    show (flushIfNearlyFull disk s).state.flushedBatches.flatten ++ (l1 ++ [e]).map some = _
    rw [← hcons1]; simp
  by_cases hel : (pushEntry (flushIfNearlyFull disk s).state e).flushIntervalElapsed now = true
  · have h3 := flush_thrown disk (pushEntry (flushIfNearlyFull disk s).state e) (hdisk _)
    rw [store_of_elapsed disk s e now h1 hel h3]
    refine ⟨rfl, _, flush_holds disk hb2, ?_⟩
    show (flush disk (pushEntry (flushIfNearlyFull disk s).state e)).state.flushedBatches.flatten
      ++ _ = _
    rw [flush_conserves disk hb2, hcons2]
  · have hel' : (pushEntry (flushIfNearlyFull disk s).state e).flushIntervalElapsed now
        = false := by simpa using hel
    rw [store_of_not_elapsed disk s e now h1 hel']
    exact ⟨rfl, _, hb2, hcons2⟩

theorem run_storeCalls_cons (disk : DiskStorage D) (s : ConcreteHistoryStorage D)
    (p : HistoryEntry × Int) (stores : List (HistoryEntry × Int)) :
    run disk s (storeCalls (p :: stores)) =
      run disk (store disk s p.1 p.2).state (storeCalls stores) := rfl

/-- Any sequence of `store` calls, with a tier that does not fail and watermarks
`low < 1`, `high <= 1`: the batches handed over followed by the buffer make up the
initial sequence followed by the records stored. -/
theorem run_storeCalls_conserves (disk : DiskStorage D)
    (hdisk : ∀ d batch, (disk.flush d batch).thrown = none)
    (stores : List (HistoryEntry × Int))
    {s : ConcreteHistoryStorage D} {l : List HistoryEntry} (hb : Holds s.ramBuffer l)
    (hlow : s.LOW_WATERMARK < 1) (hhigh : s.HIGH_WATERMARK ≤ 1) :
    ∃ l', Holds (run disk s (storeCalls stores)).ramBuffer l' ∧
      (run disk s (storeCalls stores)).flushedBatches.flatten ++ l'.map some =
        s.flushedBatches.flatten ++ l.map some ++ (stores.map Prod.fst).map some := by
  induction stores generalizing s l with
  | nil => exact ⟨l, hb, by simp [run, storeCalls]⟩
  | cons p stores ih =>
    obtain ⟨-, l1, hb1, hc1⟩ := store_conserves disk hdisk hb hlow hhigh p.1 p.2
    have hcfg := store_sameConfig disk s p.1 p.2
    obtain ⟨l2, hb2, hc2⟩ := ih hb1 (by rw [hcfg.low]; exact hlow)
      (by rw [hcfg.high]; exact hhigh)
    refine ⟨l2, by rw [run_storeCalls_cons]; exact hb2, ?_⟩
    rw [run_storeCalls_cons, hc2, hc1]
    simp

end ConcreteHistoryStorage

namespace ConcreteHistoryStorage

open CircularBuffer

variable {D : Type}

theorem isRamBufferNearlyFull_of_holds {s : ConcreteHistoryStorage D} {l : List HistoryEntry}
    (hb : Holds s.ramBuffer l) :
    s.isRamBufferNearlyFull =
      decide ((l.length : ℚ) ≥ (s.ramBuffer.capacity : ℚ) * s.HIGH_WATERMARK) := by
  simp only [isRamBufferNearlyFull, getSize, getCapacity, hb.size_eq]

theorem flushIntervalElapsed_pushEntry (s : ConcreteHistoryStorage D) (e : HistoryEntry)
    (now : Int) (h : now - s.lastFlushTime < s.FLUSH_INTERVAL) :
    (pushEntry s e).flushIntervalElapsed now = false := by
  simp only [flushIntervalElapsed, pushEntry, decide_eq_false_iff_not, not_le, ge_iff_le]
  exact h

/-- A run of `store` calls that all find the buffer below the high watermark and the
flush interval not yet elapsed: every record is appended and nothing else changes. -/
theorem run_no_flush (disk : DiskStorage D) (more : List (HistoryEntry × Int))
    {s : ConcreteHistoryStorage D} {l : List HistoryEntry} (hb : Holds s.ramBuffer l)
    (hhigh : s.HIGH_WATERMARK ≤ 1)
    (hroom : ∀ j, j < more.length →
      ((l.length + j : Nat) : ℚ) < (s.ramBuffer.capacity : ℚ) * s.HIGH_WATERMARK)
    (hnow : ∀ p ∈ more, p.2 - s.lastFlushTime < s.FLUSH_INTERVAL) :
    Holds (run disk s (storeCalls more)).ramBuffer (l ++ more.map Prod.fst) ∧
      OnlyPushed s (run disk s (storeCalls more)) := by
  induction more generalizing s l with
  | nil => exact ⟨by simpa [run, storeCalls] using hb, SameConfig.refl s, rfl, rfl, rfl, rfl⟩
  | cons p more ih =>
    have hnf : s.isRamBufferNearlyFull = false := by
      rw [isRamBufferNearlyFull_of_holds hb]
      have := hroom 0 (by simp)
      simpa using this
    have hne := flushIntervalElapsed_pushEntry s p.1 p.2 (hnow p (by simp))
    have hst := store_no_flush disk s p.1 p.2 hnf hne
    have hlt : s.ramBuffer.size < s.ramBuffer.capacity := size_lt_of_not_nearlyFull s hhigh hnf
    have hb1 : Holds (pushEntry s p.1).ramBuffer (l ++ [p.1]) := hb.push_of_lt hlt p.1
    have hcap : (pushEntry s p.1).ramBuffer.capacity = s.ramBuffer.capacity :=
      push_capacity _ _
    obtain ⟨hb2, hop⟩ := @ih (pushEntry s p.1) (l ++ [p.1]) hb1 hhigh
      (by
        intro j hj
        have := hroom (j + 1) (by simpa using hj)
        rw [hcap]
        show _ < (s.ramBuffer.capacity : ℚ) * s.HIGH_WATERMARK
        have e : (l ++ [p.1]).length + j = l.length + (j + 1) := by simp; omega
        rw [e]; exact this)
      (by
        intro q hq
        exact hnow q (List.mem_cons_of_mem _ hq))
    rw [run_storeCalls_cons, hst]
    refine ⟨by simpa using hb2, ?_⟩
    exact ⟨(pushEntry_sameConfig s p.1).trans hop.config, hop.disk, hop.batches, hop.count,
      hop.time⟩

end ConcreteHistoryStorage

/-! ## Ring buffer: capacity, FIFO order, overwrite, pop -/

namespace CircularBuffer

variable {T : Type}

/-- C7. Capacity invariant: after any sequence of `push` and `pop` calls (a `pop` on an
empty buffer throws and changes nothing) on a new buffer of capacity at least one, the
size is at most the capacity, the capacity is the one given to the constructor, and a
`push` onto a full buffer leaves the size equal to the capacity. -/
theorem capacity_invariant (cap : Nat) (hcap : 1 ≤ cap) (ops : List (Op T)) :
    ((new cap).run ops).getSize ≤ ((new cap).run ops).getCapacity ∧
    ((new cap).run ops).getCapacity = cap ∧
    ∀ item : T, ((new cap).run ops).isFull = true →
      (((new cap).run ops).push item).getSize = ((new cap).run ops).getCapacity ∧
      (((new cap).run ops).push item).getCapacity = ((new cap).run ops).getCapacity := by
  obtain ⟨l, hl⟩ := (holds_new (T := T) cap hcap).after_run ops
  refine ⟨hl.size_le, run_capacity _ _, ?_⟩
  intro item hfull
  have hfull' : ((new cap).run ops).size = ((new cap).run ops).capacity := by
    simpa [isFull] using hfull
  simp [push, hfull', getSize, getCapacity]

/-- Witness of C7: a buffer of capacity 2 after three pushes and a pop. -/
theorem capacity_invariant_witness :
    ((new 2).run [Op.push 7, Op.push 8, Op.push 9, Op.pop]).getSize ≤
        ((new 2).run [Op.push 7, Op.push 8, Op.push 9, Op.pop]).getCapacity ∧
    ((new 2).run [Op.push 7, Op.push 8, Op.push 9, Op.pop]).getCapacity = 2 ∧
    ∀ item : Nat, ((new 2).run [Op.push 7, Op.push 8, Op.push 9, Op.pop]).isFull = true →
      (((new 2).run [Op.push 7, Op.push 8, Op.push 9, Op.pop]).push item).getSize =
        ((new 2).run [Op.push 7, Op.push 8, Op.push 9, Op.pop]).getCapacity ∧
      (((new 2).run [Op.push 7, Op.push 8, Op.push 9, Op.pop]).push item).getCapacity =
        ((new 2).run [Op.push 7, Op.push 8, Op.push 9, Op.pop]).getCapacity :=
  capacity_invariant 2 (by decide) [Op.push 7, Op.push 8, Op.push 9, Op.pop]

/-- C8. FIFO order: after pushing the records `items` (at most `cap` of them) onto a new
buffer of capacity `cap`, with no pops, the size is the number of records pushed, `at(i)`
is the `(i+1)`-th pushed record for every `i` below that number, and `at(i)` throws
`out_of_range` for every other `i`. -/
theorem fifo_order (cap : Nat) (hcap : 1 ≤ cap) (items : List T) (hN : items.length ≤ cap) :
    ((new cap).run (items.map Op.push)).getSize = items.length ∧
    (∀ i (h : i < items.length),
      ((new cap).run (items.map Op.push)).atIndex i = .ok (items.get ⟨i, h⟩)) ∧
    (∀ i, items.length ≤ i →
      ((new cap).run (items.map Op.push)).atIndex i = .error .indexOutOfRange) := by
  have h := (holds_new (T := T) cap hcap).after_pushes items (by simpa [new] using hN)
  simp only [List.nil_append] at h
  exact ⟨h.size_eq, fun i hi => h.atIndex_lt i hi, fun i hi => h.atIndex_ge i hi⟩

/-- Witness of C8: three pushes onto a buffer of capacity 4. -/
theorem fifo_order_witness :
    ((new 4).run ([10, 20, 30].map Op.push)).getSize = [10, 20, 30].length ∧
    (∀ i (h : i < [10, 20, 30].length),
      ((new 4).run ([10, 20, 30].map Op.push)).atIndex i = .ok ([10, 20, 30].get ⟨i, h⟩)) ∧
    (∀ i, [10, 20, 30].length ≤ i →
      ((new 4).run ([10, 20, 30].map Op.push)).atIndex i = .error .indexOutOfRange) :=
  fifo_order 4 (by decide) [10, 20, 30] (by decide)

/-- C9. Overwrite semantics: on a full buffer reached from a new buffer of capacity at
least one by pushes and pops, `push(r)` keeps the size, every `at(i)` with
`i < capacity - 1` now returns the record that `at(i+1)` returned before, and
`at(capacity - 1)` returns `r`; so exactly the oldest record is gone. -/
theorem overwrite_semantics (cap : Nat) (hcap : 1 ≤ cap) (ops : List (Op T)) (r : T)
    (hfull : ((new cap).run ops).getSize = ((new cap).run ops).getCapacity) :
    (((new cap).run ops).push r).getSize = ((new cap).run ops).getSize ∧
    (∀ i, i < cap - 1 → ∃ v, ((new cap).run ops).atIndex (i + 1) = .ok v ∧
      (((new cap).run ops).push r).atIndex i = .ok v) ∧
    (((new cap).run ops).push r).atIndex (cap - 1) = .ok r := by
  obtain ⟨l, hl⟩ := (holds_new (T := T) cap hcap).after_run ops
  have hc : ((new cap).run ops).capacity = cap := run_capacity _ _
  have hfull' : ((new cap).run ops).size = ((new cap).run ops).capacity := hfull
  have hlen : l.length = cap := by rw [← hl.size_eq, hfull', hc]
  have hp := hl.push_of_full hfull' r
  rcases l with _ | ⟨a, l⟩
  · simp at hlen; omega
  simp only [List.tail_cons] at hp
  simp only [List.length_cons] at hlen
  refine ⟨by simp [push, hfull', getSize], ?_, ?_⟩
  · intro i hi
    have h1 : i + 1 < (a :: l).length := by simp; omega
    have h2 : i < (l ++ [r]).length := by simp; omega
    refine ⟨(a :: l).get ⟨i + 1, h1⟩, hl.atIndex_lt _ h1, ?_⟩
    rw [hp.atIndex_lt i h2]
    have h3 : i < l.length := by omega
    simp [List.getElem_append_left, h3]
  · have h2 : cap - 1 < (l ++ [r]).length := by simp; omega
    rw [hp.atIndex_lt _ h2]
    have h3 : l.length = cap - 1 := by omega
    simp [List.getElem_append_right, h3]

/-- Witness of C9: a full buffer of capacity 3, reached through a pop, is pushed onto. -/
theorem overwrite_semantics_witness :
    (((new 3).run [Op.push 1, Op.push 2, Op.pop, Op.push 3, Op.push 4]).push 5).getSize =
      ((new 3).run [Op.push 1, Op.push 2, Op.pop, Op.push 3, Op.push 4]).getSize ∧
    (∀ i, i < 3 - 1 → ∃ v,
      ((new 3).run [Op.push 1, Op.push 2, Op.pop, Op.push 3, Op.push 4]).atIndex (i + 1)
        = .ok v ∧
      (((new 3).run [Op.push 1, Op.push 2, Op.pop, Op.push 3, Op.push 4]).push 5).atIndex i
        = .ok v) ∧
    (((new 3).run [Op.push 1, Op.push 2, Op.pop, Op.push 3, Op.push 4]).push 5).atIndex
      (3 - 1) = .ok 5 :=
  overwrite_semantics 3 (by decide) [Op.push 1, Op.push 2, Op.pop, Op.push 3, Op.push 4] 5
    (by decide)

/-- C10. `pop` on a buffer reached from a new buffer of capacity at least one by pushes and
pops: it throws the empty-buffer error exactly when the size is zero, and a call that
throws leaves the buffer as it was; on a non-empty buffer it returns the record `at(0)`
returned, the size drops by exactly one, and every `at(i)` with `i < size - 1` now
returns the record that `at(i+1)` returned before. -/
theorem pop_semantics (cap : Nat) (hcap : 1 ≤ cap) (ops : List (Op T)) :
    (((new cap).run ops).pop = .error .emptyBuffer ↔ ((new cap).run ops).getSize = 0) ∧
    (((new cap).run ops).getSize = 0 →
      ((new cap).run ops).applyOp Op.pop = (new cap).run ops) ∧
    (((new cap).run ops).getSize ≠ 0 → ∃ r b',
      ((new cap).run ops).pop = .ok (some r, b') ∧
      ((new cap).run ops).atIndex 0 = .ok r ∧
      b'.getSize + 1 = ((new cap).run ops).getSize ∧
      ∀ i, i < ((new cap).run ops).getSize - 1 → ∃ v,
        ((new cap).run ops).atIndex (i + 1) = .ok v ∧ b'.atIndex i = .ok v) := by
  obtain ⟨l, hl⟩ := (holds_new (T := T) cap hcap).after_run ops
  refine ⟨?_, ?_, ?_⟩
  · constructor
    · intro h
      by_contra hne
      have hne' : ¬ ((new cap).run ops).size = 0 := hne
      simp [pop, hne'] at h
    · intro h
      have h' : ((new cap).run ops).size = 0 := h
      simp [pop, h']
  · intro h
    have h' : ((new cap).run ops).size = 0 := h
    simp [applyOp, pop, h']
  · intro hne
    have hsz : ((new cap).run ops).getSize = l.length := hl.size_eq
    rcases l with _ | ⟨x, l⟩
    · exact absurd hsz hne
    obtain ⟨b', hpop, hb'⟩ := hl.pop_cons
    refine ⟨x, b', hpop, ?_, ?_, ?_⟩
    · simpa using hl.atIndex_lt 0 (by simp)
    · rw [hsz]; simp [getSize, hb'.size_eq]
    · intro i hi
      have hi' : i < l.length := by rw [hsz] at hi; simpa using hi
      have h1 : i + 1 < (x :: l).length := by simp; omega
      refine ⟨(x :: l).get ⟨i + 1, h1⟩, hl.atIndex_lt _ h1, ?_⟩
      rw [hb'.atIndex_lt i hi']
      simp

/-- Witness of C10: the claim at a buffer of capacity 3 holding two records. -/
theorem pop_semantics_witness :
    (((new 3).run [Op.push 1, Op.push 2]).pop = .error .emptyBuffer ↔
      ((new 3).run [Op.push 1, Op.push 2]).getSize = 0) ∧
    (((new 3).run [Op.push 1, Op.push 2]).getSize = 0 →
      ((new 3).run [Op.push 1, Op.push 2]).applyOp Op.pop = (new 3).run [Op.push 1, Op.push 2]) ∧
    (((new 3).run [Op.push 1, Op.push 2]).getSize ≠ 0 → ∃ r b',
      ((new 3).run [Op.push 1, Op.push 2]).pop = .ok (some r, b') ∧
      ((new 3).run [Op.push 1, Op.push 2]).atIndex 0 = .ok r ∧
      b'.getSize + 1 = ((new 3).run [Op.push 1, Op.push 2]).getSize ∧
      ∀ i, i < ((new 3).run [Op.push 1, Op.push 2]).getSize - 1 → ∃ v,
        ((new 3).run [Op.push 1, Op.push 2]).atIndex (i + 1) = .ok v ∧ b'.atIndex i = .ok v) :=
  pop_semantics 3 (by decide) [Op.push 1, Op.push 2]

end CircularBuffer

/-! ## Tiered store: hand-over, flush, retrieve -/

namespace ConcreteHistoryStorage

open CircularBuffer

variable {D : Type}

/-- C1. No data loss across the RAM-to-disk handoff: for a capacity of at least one,
watermarks with `0 < low < high <= 1`, any clock values and any sequence of `store` calls
against a tier whose `flush` never throws, (a) the push inside every one of the calls is
made on a buffer that is not full, so the overwrite branch of `push` is never taken, and
(b) after the calls, the batches handed to the tier, in hand-over order, followed by the
slots of the ring buffer, oldest first, are exactly the records stored, in store order. -/
theorem no_data_loss (disk : DiskStorage D)
    (hdisk : ∀ d batch, (disk.flush d batch).thrown = none)
    (cap : Nat) (hcap : 1 ≤ cap) (high low : ℚ) (_hlow : 0 < low) (hlh : low < high)
    (hhigh : high ≤ 1) (d : D) (flushInterval now0 : Int)
    (stores : List (HistoryEntry × Int)) :
    (∀ i, i < stores.length →
      (flushIfNearlyFull disk
        (run disk (new cap d flushInterval high low now0)
          (storeCalls (stores.take i)))).state.ramBuffer.isFull = false) ∧
    (run disk (new cap d flushInterval high low now0) (storeCalls stores)).flushedBatches.flatten
        ++ (run disk (new cap d flushInterval high low now0) (storeCalls stores)).ramBuffer.window
      = (stores.map Prod.fst).map some := by
  have hl1 : low < 1 := lt_of_lt_of_le hlh hhigh
  have h0 : Holds (new cap d flushInterval high low now0).ramBuffer [] := holds_new cap hcap
  have key : ∀ ss : List (HistoryEntry × Int),
      ∃ l', Holds (run disk (new cap d flushInterval high low now0) (storeCalls ss)).ramBuffer l'
        ∧ (run disk (new cap d flushInterval high low now0) (storeCalls ss)).flushedBatches.flatten
            ++ l'.map some = (ss.map Prod.fst).map some := by
    intro ss
    obtain ⟨l', hb, hc⟩ := run_storeCalls_conserves disk hdisk ss h0 hl1 hhigh
    exact ⟨l', hb, by simpa [new] using hc⟩
  constructor
  · intro i _
    obtain ⟨l', hb, -⟩ := key (stores.take i)
    have hcfg := run_sameConfig disk (new cap d flushInterval high low now0)
      (storeCalls (stores.take i))
    obtain ⟨-, l1, hb1, hlen, -⟩ := flushIfNearlyFull_spec disk hdisk hb
      (by rw [hcfg.low]; exact hl1) (by rw [hcfg.high]; exact hhigh)
    have hc1 := flushIfNearlyFull_sameConfig disk
      (run disk (new cap d flushInterval high low now0) (storeCalls (stores.take i)))
    have : (flushIfNearlyFull disk (run disk (new cap d flushInterval high low now0)
        (storeCalls (stores.take i)))).state.ramBuffer.size ≠
        (flushIfNearlyFull disk (run disk (new cap d flushInterval high low now0)
        (storeCalls (stores.take i)))).state.ramBuffer.capacity := by
      rw [hb1.size_eq, hc1.capacity]; omega
    simpa [isFull] using this
  · obtain ⟨l', hb, hc⟩ := key stores
    rw [hb.window_eq]; exact hc

/-- Witness of C1: capacity 3, watermarks 2/3 and 1/3, five records stored over the
in-memory tier. -/
theorem no_data_loss_witness :
    (∀ i, i < (scenarioStores 5).length →
      (flushIfNearlyFull listDisk
        (run listDisk (new 3 [] 3600 (2 / 3) (1 / 3) 0)
          (storeCalls ((scenarioStores 5).take i)))).state.ramBuffer.isFull = false) ∧
    (run listDisk (new 3 [] 3600 (2 / 3) (1 / 3) 0)
        (storeCalls (scenarioStores 5))).flushedBatches.flatten
        ++ (run listDisk (new 3 [] 3600 (2 / 3) (1 / 3) 0)
          (storeCalls (scenarioStores 5))).ramBuffer.window
      = ((scenarioStores 5).map Prod.fst).map some :=
  no_data_loss listDisk (fun _ _ => rfl) 3 (by decide) (2 / 3) (1 / 3) (by norm_num)
    (by norm_num) (by norm_num) [] 3600 0 (scenarioStores 5)

/-- C3. `retrieve(start, end)` on a reachable store, whatever sequence the tier returns
for the range: the call returns a sequence sorted by non-decreasing timestamp that is a
permutation of the buffered records with `start <= timestamp <= end` followed by the
tier's records; nothing is dropped, added or deduplicated. -/
theorem retrieve_sorted_perm (disk : DiskStorage D) (s : ConcreteHistoryStorage D)
    (hs : Reachable disk s) (start finish : Int) (diskEntries : List HistoryEntry)
    (hd : disk.retrieve s.diskStorage start finish = .ok diskEntries) :
    ∃ (l result : List HistoryEntry),
      s.ramBuffer.window = l.map some ∧
      retrieve disk s start finish = .ok result ∧
      result.Sorted (fun a b => a.getTimestamp ≤ b.getTimestamp) ∧
      result.Perm
        ((l.filter fun e => decide (start ≤ e.getTimestamp ∧ e.getTimestamp ≤ finish))
          ++ diskEntries) := by
  obtain ⟨l, hb⟩ := hs.holds
  refine ⟨l, _, hb.window_eq, ?_, stdSort_sorted _, stdSort_perm _⟩
  simp only [retrieve, retrieveFromRAM_holds hb, hd]

/-- Witness of C3: a range query on the store of capacity 10 after eight `store` calls. -/
theorem retrieve_sorted_perm_witness :
    ∃ (l result : List HistoryEntry),
      scenarioStore.ramBuffer.window = l.map some ∧
      retrieve listDisk scenarioStore 2 6 = .ok result ∧
      result.Sorted (fun a b => a.getTimestamp ≤ b.getTimestamp) ∧
      result.Perm
        ((l.filter fun e => decide ((2 : Int) ≤ e.getTimestamp ∧ e.getTimestamp ≤ 6))
          ++ (scenarioStore.diskStorage.filter fun e =>
            decide ((2 : Int) ≤ e.getTimestamp ∧ e.getTimestamp ≤ 6))) :=
  retrieve_sorted_perm listDisk scenarioStore
    ⟨10, [], 3600, 4 / 5, 1 / 2, 0, _, by decide, rfl⟩ 2 6 _ rfl

/-- C6. Flush idempotence: on a reachable store, a second `flush()` right after a first
one finds nothing to evict, returns without throwing and leaves the store exactly as the
first call left it: the buffer, the tier (no call is made to it), the list of batches
handed over and the flush count are unchanged. -/
theorem flush_idempotent (disk : DiskStorage D) (s : ConcreteHistoryStorage D)
    (hs : Reachable disk s) :
    (flush disk s).state.entriesaboutToFlush = 0 ∧
    flush disk (flush disk s).state = { state := (flush disk s).state, thrown := none } ∧
    (flush disk (flush disk s).state).state.ramBuffer = (flush disk s).state.ramBuffer ∧
    (flush disk (flush disk s).state).state.diskStorage = (flush disk s).state.diskStorage ∧
    (flush disk (flush disk s).state).state.flushedBatches =
      (flush disk s).state.flushedBatches ∧
    (flush disk (flush disk s).state).state.getFlushCount =
      (flush disk s).state.getFlushCount := by
  obtain ⟨l, hb⟩ := hs.holds
  have hb' := flush_holds disk hb
  have hlow := (flush_sameConfig disk s).lowWatermarkSize_eq
  have h0 : (flush disk s).state.entriesaboutToFlush = 0 := by
    rw [entriesaboutToFlush_eq, hb'.size_eq, hlow, List.length_drop]; omega
  have h1 := flush_of_nothing disk (flush disk s).state h0
  refine ⟨h0, h1, ?_, ?_, ?_, ?_⟩ <;> rw [h1]

/-- Witness of C6: two flushes of the store of capacity 10 after eight `store` calls. -/
theorem flush_idempotent_witness :
    (flush listDisk scenarioStore).state.entriesaboutToFlush = 0 ∧
    flush listDisk (flush listDisk scenarioStore).state =
      { state := (flush listDisk scenarioStore).state, thrown := none } ∧
    (flush listDisk (flush listDisk scenarioStore).state).state.ramBuffer =
      (flush listDisk scenarioStore).state.ramBuffer ∧
    (flush listDisk (flush listDisk scenarioStore).state).state.diskStorage =
      (flush listDisk scenarioStore).state.diskStorage ∧
    (flush listDisk (flush listDisk scenarioStore).state).state.flushedBatches =
      (flush listDisk scenarioStore).state.flushedBatches ∧
    (flush listDisk (flush listDisk scenarioStore).state).state.getFlushCount =
      (flush listDisk scenarioStore).state.getFlushCount :=
  flush_idempotent listDisk scenarioStore ⟨10, [], 3600, 4 / 5, 1 / 2, 0, _, by decide, rfl⟩

end ConcreteHistoryStorage

namespace ConcreteHistoryStorage

open CircularBuffer

variable {D : Type}

/-- A `store` call that finds the buffer at or above the high watermark, with
`0 < low < high <= 1`, a tier that does not fail and the flush interval not elapsed: it
flushes the oldest `size - floor(capacity * low)` records as one batch, then appends. -/
theorem store_at_high (disk : DiskStorage D)
    (hdisk : ∀ d batch, (disk.flush d batch).thrown = none)
    {s : ConcreteHistoryStorage D} {l : List HistoryEntry} (hb : Holds s.ramBuffer l)
    (hlow : 0 < s.LOW_WATERMARK) (hlh : s.LOW_WATERMARK < s.HIGH_WATERMARK)
    (hhigh : s.HIGH_WATERMARK ≤ 1) (hn : s.isRamBufferNearlyFull = true)
    (entry : HistoryEntry) (now : Int) (hnow : now - s.lastFlushTime < s.FLUSH_INTERVAL) :
    s.lowWatermarkSize < l.length ∧
    flushIfNearlyFull disk s = flush disk s ∧
    Holds (flush disk s).state.ramBuffer (l.drop (l.length - s.lowWatermarkSize)) ∧
    (flush disk s).state.flushedBatches =
      s.flushedBatches ++ [(l.take (l.length - s.lowWatermarkSize)).map some] ∧
    (flush disk s).state.totalFlushCount = s.totalFlushCount + 1 ∧
    store disk s entry now =
      { state := pushEntry (flush disk s).state entry, thrown := none } ∧
    Holds (pushEntry (flush disk s).state entry).ramBuffer
      (l.drop (l.length - s.lowWatermarkSize) ++ [entry]) := by
  have hcap := hb.cap_pos
  have hcq : (0 : ℚ) < (s.ramBuffer.capacity : ℚ) := by exact_mod_cast hcap
  have hocc' : (s.ramBuffer.capacity : ℚ) * s.HIGH_WATERMARK ≤ (l.length : ℚ) := by
    rw [isRamBufferNearlyFull_of_holds hb] at hn
    simpa using hn
  have hlolt : s.lowWatermarkSize < l.length := by
    have h1 : (s.lowWatermarkSize : ℚ) ≤ (s.ramBuffer.capacity : ℚ) * s.LOW_WATERMARK :=
      Nat.floor_le (by positivity)
    have h2 : (s.ramBuffer.capacity : ℚ) * s.LOW_WATERMARK
        < (s.ramBuffer.capacity : ℚ) * s.HIGH_WATERMARK := by nlinarith
    have : (s.lowWatermarkSize : ℚ) < (l.length : ℚ) := by linarith
    exact_mod_cast this
  have hfl : flushIfNearlyFull disk s = flush disk s := by simp [flushIfNearlyFull, hn]
  have hb1 := flush_holds disk hb
  have hcfg1 := flush_sameConfig disk s
  have hfc := flush_config disk s
  have hlen1 : (l.drop (l.length - s.lowWatermarkSize)).length = s.lowWatermarkSize := by
    rw [List.length_drop]; omega
  have hk0 : ¬ (l.length - s.lowWatermarkSize = 0) := by omega
  have hbat := flush_batches_of_holds disk hb
  simp only [hk0, if_false] at hbat
  have hthrown := flush_thrown disk s (hdisk _)
  have hcount := flush_totalFlushCount disk s (hdisk _)
  rw [(flush_batch hb).1] at hcount
  have hne : ((l.take (l.length - s.lowWatermarkSize)).map some).isEmpty = false := by
    cases l with
    | nil => simp at hlolt
    | cons x l =>
      have : ¬ (l.length + 1 ≤ s.lowWatermarkSize) := by simpa using hlolt
      simp [this]
      omega
  simp only [hne, Bool.false_eq_true, if_false] at hcount
  have hel : (pushEntry (flushIfNearlyFull disk s).state entry).flushIntervalElapsed now
      = false := by
    apply flushIntervalElapsed_pushEntry
    rw [hfl, hfc.2.2.2.1, hfc.2.2.1]; exact hnow
  have hst := store_of_not_elapsed disk s entry now (by rw [hfl]; exact hthrown) hel
  rw [hfl] at hst
  have hlt1 : (flush disk s).state.ramBuffer.size < (flush disk s).state.ramBuffer.capacity := by
    rw [hb1.size_eq, hlen1, hcfg1.capacity]
    exact lowWatermarkSize_lt_capacity s hcap (lt_of_lt_of_le hlh hhigh)
  exact ⟨hlolt, hfl, hb1, hbat, hcount, hst, hb1.push_of_lt hlt1 entry⟩

theorem run_storeCalls_snoc (disk : DiskStorage D) (s : ConcreteHistoryStorage D)
    (stores : List (HistoryEntry × Int)) (p : HistoryEntry × Int) :
    run disk s (storeCalls (stores ++ [p])) =
      (store disk (run disk s (storeCalls stores)) p.1 p.2).state := by
  simp [run, storeCalls, List.foldl_append, applyCall]

end ConcreteHistoryStorage

namespace ConcreteHistoryStorage

open CircularBuffer

variable {D : Type}

theorem scenarioStores_clock (n : Nat) : ∀ p ∈ scenarioStores n, p.2 = 0 := by
  intro p hp
  simp only [scenarioStores, List.mem_map] at hp
  obtain ⟨i, -, rfl⟩ := hp
  rfl

theorem scenarioStores_length (n : Nat) : (scenarioStores n).length = n := by
  unfold scenarioStores
  rw [List.length_map, List.length_range]

end ConcreteHistoryStorage

namespace ConcreteHistoryStorage

open CircularBuffer

variable {D : Type}

/-- The end-to-end scenario, step by step, for any tier that does not fail, any payloads
and any clock values that keep the time trigger off. -/
theorem scenario_steps (disk : DiskStorage D)
    (hdisk : ∀ d batch, (disk.flush d batch).thrown = none) (d : D) (now0 : Int)
    (stores : List (HistoryEntry × Int))
    (hts : stores.map (fun p => p.1.getTimestamp) = [1, 2, 3, 4, 5, 6, 7, 8, 9])
    (hclock : ∀ p ∈ stores, p.2 - now0 < 3600) :
    (∀ k, k < 8 →
      (run disk (new 10 d 3600 (4 / 5) (1 / 2) now0)
        (storeCalls (stores.take k))).isRamBufferNearlyFull = false ∧
      (run disk (new 10 d 3600 (4 / 5) (1 / 2) now0)
        (storeCalls (stores.take (k + 1)))).flushedBatches = [] ∧
      (run disk (new 10 d 3600 (4 / 5) (1 / 2) now0)
        (storeCalls (stores.take (k + 1)))).getFlushCount = 0) ∧
    (run disk (new 10 d 3600 (4 / 5) (1 / 2) now0)
      (storeCalls (stores.take 8))).getInRamCount = 8 ∧
    (run disk (new 10 d 3600 (4 / 5) (1 / 2) now0)
      (storeCalls (stores.take 8))).isRamBufferNearlyFull = true ∧
    (flushIfNearlyFull disk (run disk (new 10 d 3600 (4 / 5) (1 / 2) now0)
      (storeCalls (stores.take 8)))).state.flushedBatches =
        [((stores.take 3).map Prod.fst).map some] ∧
    (stores.take 3).map (fun p => p.1.getTimestamp) = [1, 2, 3] ∧
    (flushIfNearlyFull disk (run disk (new 10 d 3600 (4 / 5) (1 / 2) now0)
      (storeCalls (stores.take 8)))).state.getInRamCount = 5 ∧
    (run disk (new 10 d 3600 (4 / 5) (1 / 2) now0) (storeCalls stores)).getInRamCount = 6 ∧
    (run disk (new 10 d 3600 (4 / 5) (1 / 2) now0) (storeCalls stores)).ramBuffer.window =
      ((stores.drop 3).map Prod.fst).map some ∧
    (run disk (new 10 d 3600 (4 / 5) (1 / 2) now0) (storeCalls stores)).getFlushCount = 1 := by
  have hlen : stores.length = 9 := by
    have := congrArg List.length hts
    simpa using this
  have h0 : Holds (new 10 d 3600 (4 / 5) (1 / 2) now0).ramBuffer [] := holds_new 10 (by decide)
  have pre : ∀ k, k ≤ 8 →
      Holds (run disk (new 10 d 3600 (4 / 5) (1 / 2) now0) (storeCalls (stores.take k))).ramBuffer
        ((stores.take k).map Prod.fst) ∧
      OnlyPushed (new 10 d 3600 (4 / 5) (1 / 2) now0)
        (run disk (new 10 d 3600 (4 / 5) (1 / 2) now0) (storeCalls (stores.take k))) := by
    intro k hk
    have hlk : (stores.take k).length = k := by rw [List.length_take]; omega
    have := run_no_flush disk (stores.take k) h0
      (by show (4 / 5 : ℚ) ≤ 1; norm_num)
      (by
        intro j hj
        rw [hlk] at hj
        show ((0 + j : Nat) : ℚ) < ((10 : Nat) : ℚ) * (4 / 5)
        have : (j : ℚ) < 8 := by exact_mod_cast (show j < 8 by omega)
        simp only [Nat.zero_add]
        norm_num
        exact_mod_cast this)
      (fun p hp => hclock p (List.mem_of_mem_take hp))
    simpa using this
  have hfloor : ∀ s' : ConcreteHistoryStorage D,
      SameConfig (new 10 d 3600 (4 / 5) (1 / 2) now0) s' → s'.lowWatermarkSize = 5 := by
    intro s' hc
    rw [hc.lowWatermarkSize_eq]
    show ⌊((10 : Nat) : ℚ) * (1 / 2)⌋₊ = 5
    norm_num
  obtain ⟨hb8, hop8⟩ := pre 8 (le_refl _)
  have hl8 : ((stores.take 8).map Prod.fst).length = 8 := by
    rw [List.length_map, List.length_take]; omega
  have hn8 : (run disk (new 10 d 3600 (4 / 5) (1 / 2) now0)
      (storeCalls (stores.take 8))).isRamBufferNearlyFull = true := by
    rw [isRamBufferNearlyFull_of_holds hb8, hl8, hop8.config.capacity, hop8.config.high]
    show decide (((8 : Nat) : ℚ) ≥ ((10 : Nat) : ℚ) * (4 / 5)) = true
    rw [decide_eq_true_eq]; norm_num
  have hsplit : stores = stores.take 8 ++ [stores.get ⟨8, by omega⟩] := by
    have h1 : stores.drop 8 = [stores.get ⟨8, by omega⟩] := by
      rw [List.drop_eq_getElem_cons (by omega)]
      simp [List.drop_eq_nil_of_le (show stores.length ≤ 8 + 1 by omega)]
    rw [← h1, List.take_append_drop]
  obtain ⟨-, hfl, hb9, hbat, hcount, hst, hbpush⟩ := store_at_high disk hdisk hb8
    (by rw [hop8.config.low]; show (0 : ℚ) < 1 / 2; norm_num)
    (by rw [hop8.config.low, hop8.config.high]; show (1 / 2 : ℚ) < 4 / 5; norm_num)
    (by rw [hop8.config.high]; show (4 / 5 : ℚ) ≤ 1; norm_num) hn8
    (stores.get ⟨8, by omega⟩).1 (stores.get ⟨8, by omega⟩).2
    (by
      rw [hop8.time, hop8.config.interval]
      exact hclock _ (List.get_mem stores 8 (by omega)))
  rw [hfloor _ hop8.config, hl8] at hb9 hbat hbpush
  have hrun : run disk (new 10 d 3600 (4 / 5) (1 / 2) now0) (storeCalls stores) =
      pushEntry (flush disk (run disk (new 10 d 3600 (4 / 5) (1 / 2) now0)
        (storeCalls (stores.take 8)))).state (stores.get ⟨8, by omega⟩).1 := by
    conv_lhs => rw [hsplit]
    rw [run_storeCalls_snoc, hst]
  have htake3 : ((stores.take 8).map Prod.fst).take (8 - 5) = (stores.take 3).map Prod.fst := by
    rw [← List.map_take, List.take_take]; rfl
  have hdrop3 : ((stores.take 8).map Prod.fst).drop (8 - 5) ++ [(stores.get ⟨8, by omega⟩).1] =
      (stores.drop 3).map Prod.fst := by
    conv_rhs => rw [hsplit]
    rw [List.drop_append_of_le_length (by rw [List.length_take]; omega)]
    simp
  refine ⟨?_, ?_, hn8, ?_, ?_, ?_, ?_, ?_, ?_⟩
  · intro k hk
    obtain ⟨hbk, hopk⟩ := pre k (by omega)
    obtain ⟨-, hopk1⟩ := pre (k + 1) (by omega)
    refine ⟨?_, hopk1.batches, hopk1.count⟩
    rw [isRamBufferNearlyFull_of_holds hbk, hopk.config.capacity, hopk.config.high,
      List.length_map, List.length_take, min_eq_left (by omega)]
    show decide (((k : Nat) : ℚ) ≥ ((10 : Nat) : ℚ) * (4 / 5)) = false
    rw [decide_eq_false_iff_not]
    have : (k : ℚ) < 8 := by exact_mod_cast hk
    norm_num
    exact_mod_cast this
  · show (run disk (new 10 d 3600 (4 / 5) (1 / 2) now0)
      (storeCalls (stores.take 8))).ramBuffer.size = 8
    rw [hb8.size_eq, hl8]
  · rw [hfl, hbat, hop8.batches, htake3]; rfl
  · have := congrArg (List.take 3) hts
    rw [← List.map_take] at this
    exact this
  · rw [hfl]
    show (flush disk _).state.ramBuffer.size = 5
    rw [hb9.size_eq, List.length_drop, hl8]
  · rw [hrun]
    show (pushEntry _ _).ramBuffer.size = 6
    rw [hbpush.size_eq, List.length_append, List.length_drop, hl8]; rfl
  · rw [hrun, hbpush.window_eq, hdrop3]
  · rw [hrun]
    show (flush disk _).state.totalFlushCount = 1
    rw [hcount, hop8.count]; rfl

/-- C4 (amended). End-to-end scenario: capacity 10, high 0.8, low 0.5, flush interval
3600, a tier that does not fail and no time-triggered flush; records with timestamps
`1 .. 9` are stored in order.  None of the first 8 `store` calls flushes.  The 9th call
finds 8 records, flushes down to `floor(10 * 0.5) = 5` records by handing the 3 oldest
(timestamps 1-3) to the tier as one batch, so `getInRamCount()` is 5 before the 9th
record is appended, and 6 after the call returns. -/
theorem end_to_end_scenario (disk : DiskStorage D)
    (hdisk : ∀ d batch, (disk.flush d batch).thrown = none) (d : D) (now0 : Int)
    (stores : List (HistoryEntry × Int))
    (hts : stores.map (fun p => p.1.getTimestamp) = [1, 2, 3, 4, 5, 6, 7, 8, 9])
    (hclock : ∀ p ∈ stores, p.2 - now0 < 3600) :
    (∀ k, k < 8 →
      (run disk (new 10 d 3600 (4 / 5) (1 / 2) now0)
        (storeCalls (stores.take k))).isRamBufferNearlyFull = false ∧
      (run disk (new 10 d 3600 (4 / 5) (1 / 2) now0)
        (storeCalls (stores.take (k + 1)))).flushedBatches = [] ∧
      (run disk (new 10 d 3600 (4 / 5) (1 / 2) now0)
        (storeCalls (stores.take (k + 1)))).getFlushCount = 0) ∧
    (run disk (new 10 d 3600 (4 / 5) (1 / 2) now0)
      (storeCalls (stores.take 8))).getInRamCount = 8 ∧
    (run disk (new 10 d 3600 (4 / 5) (1 / 2) now0)
      (storeCalls (stores.take 8))).isRamBufferNearlyFull = true ∧
    (flushIfNearlyFull disk (run disk (new 10 d 3600 (4 / 5) (1 / 2) now0)
      (storeCalls (stores.take 8)))).state.flushedBatches =
        [((stores.take 3).map Prod.fst).map some] ∧
    (stores.take 3).map (fun p => p.1.getTimestamp) = [1, 2, 3] ∧
    (flushIfNearlyFull disk (run disk (new 10 d 3600 (4 / 5) (1 / 2) now0)
      (storeCalls (stores.take 8)))).state.getInRamCount = 5 ∧
    (run disk (new 10 d 3600 (4 / 5) (1 / 2) now0) (storeCalls stores)).getInRamCount = 6 ∧
    (run disk (new 10 d 3600 (4 / 5) (1 / 2) now0) (storeCalls stores)).ramBuffer.window =
      ((stores.drop 3).map Prod.fst).map some ∧
    (run disk (new 10 d 3600 (4 / 5) (1 / 2) now0) (storeCalls stores)).getFlushCount = 1 :=
  scenario_steps disk hdisk d now0 stores hts hclock

/-- Witness of C4 (amended): the scenario over the in-memory tier, every call reading the
clock as `0`: 5 records in RAM before the 9th is appended, 6 after. -/
theorem end_to_end_scenario_witness :
    (scenarioStores 9).map (fun p => p.1.getTimestamp) = [1, 2, 3, 4, 5, 6, 7, 8, 9] ∧
    (flushIfNearlyFull listDisk (run listDisk (new 10 [] 3600 (4 / 5) (1 / 2) 0)
      (storeCalls ((scenarioStores 9).take 8)))).state.getInRamCount = 5 ∧
    (run listDisk (new 10 [] 3600 (4 / 5) (1 / 2) 0)
      (storeCalls (scenarioStores 9))).getInRamCount = 6 :=
  ⟨by decide,
    (end_to_end_scenario listDisk (fun _ _ => rfl) [] 0 (scenarioStores 9) (by decide)
      (fun p hp => by rw [scenarioStores_clock 9 p hp]; decide)).2.2.2.2.2.1,
    (end_to_end_scenario listDisk (fun _ _ => rfl) [] 0 (scenarioStores 9) (by decide)
      (fun p hp => by rw [scenarioStores_clock 9 p hp]; decide)).2.2.2.2.2.2.1⟩

/-- C4 as stated fails: in the scenario the 9th `store` call does not leave 4 records in
RAM before it appends, nor 5 after it returns, and the batch it hands to the tier is not
the five records with timestamps 1-5. -/
theorem end_to_end_scenario_counterexample :
    (flushIfNearlyFull listDisk scenarioStore).state.getInRamCount ≠ 4 ∧
    (store listDisk scenarioStore ⟨9, .int 0⟩ 0).state.getInRamCount ≠ 5 ∧
    (flushIfNearlyFull listDisk scenarioStore).state.flushedBatches ≠
      [(((scenarioStores 9).take 5).map Prod.fst).map some] := by
  have h := scenario_steps listDisk (fun _ _ => rfl) [] 0 (scenarioStores 9) (by decide)
    (fun p hp => by rw [scenarioStores_clock 9 p hp]; decide)
  obtain ⟨-, -, -, hbat, -, h5, h6, -, -⟩ := h
  have e8 : run listDisk (new 10 [] 3600 (4 / 5) (1 / 2) 0)
      (storeCalls ((scenarioStores 9).take 8)) = scenarioStore := rfl
  have e9 : run listDisk (new 10 [] 3600 (4 / 5) (1 / 2) 0) (storeCalls (scenarioStores 9)) =
      (store listDisk scenarioStore ⟨9, .int 0⟩ 0).state := rfl
  rw [e8] at h5 hbat
  rw [e9] at h6
  refine ⟨by rw [h5]; decide, by rw [h6]; decide, ?_⟩
  rw [hbat]
  decide

end ConcreteHistoryStorage

/-! ## Records: fixed-width text, stored rows -/

namespace HistoryEntry

theorem mkString_of_length {w : List Char} (ts : Int) (h : w.length = 50) :
    mkString ts w = { timestamp := ts, value := .string w } := by
  have h1 : w.take 50 = w := List.take_of_length_le (by omega)
  simp [mkString, STRING_SIZE, h1, h]

/-- C11. A text record built from the timestamp `ts` and the string `s` holds a value of
exactly 50 characters: the first 50 characters of `s` when `s` has 50 or more, and `s`
followed by spaces up to 50 characters when `s` is shorter.  Its `getSize()` is
`8 + 50 = 58` whatever `s` is, and building a text record from a value that already has
50 characters keeps that value as it is. -/
theorem text_record_fixed_width (ts : Int) (s : List Char) :
    ∃ v : List Char,
      (mkString ts s).value = .string v ∧
      v.length = 50 ∧
      (50 ≤ s.length → v = s.take 50) ∧
      (s.length < 50 → v = s ++ List.replicate (50 - s.length) (Char.ofNat 32)) ∧
      (mkString ts s).getSize = 8 + 50 ∧
      (mkString ts s).getSize = 58 ∧
      (mkString ts s).getTimestamp = ts ∧
      mkString ts v = mkString ts s ∧
      ∀ w : List Char, w.length = 50 → (mkString ts w).value = .string w := by
  have hlen : (s.take 50 ++ List.replicate (50 - (s.take 50).length) (Char.ofNat 32)).length
      = 50 := by
    simp only [List.length_append, List.length_take, List.length_replicate]
    omega
  refine ⟨s.take 50 ++ List.replicate (50 - (s.take 50).length) (Char.ofNat 32), rfl, hlen,
    ?_, ?_, rfl, rfl, rfl, ?_, ?_⟩
  · intro h
    have : (s.take 50).length = 50 := by rw [List.length_take]; omega
    simp [this]
  · intro h
    have h1 : s.take 50 = s := List.take_of_length_le (by omega)
    rw [h1]
  · rw [mkString_of_length ts hlen]; rfl
  · intro w hw
    rw [mkString_of_length ts hw]

end HistoryEntry

theorem cString_of_no_zero {v : List Char} (h : Char.ofNat 0 ∉ v) : cString v = v := by
  unfold cString
  rw [List.takeWhile_eq_self_iff]
  intro c hc
  have : c ≠ Char.ofNat 0 := fun e => h (e ▸ hc)
  simpa using this

theorem toInt32_of_range {value : Int} (h1 : -(2 : Int) ^ 31 ≤ value)
    (h2 : value < (2 : Int) ^ 31) : toInt32 value = value := by
  unfold toInt32
  norm_num at h1 h2 ⊢
  omega

/-- The rows written by `flush` are read back by `retrieve` as the record they came from,
for `double`, `int` and `bool` records and for text records without a zero character. -/
theorem decodeRow_bindRow (e : HistoryEntry) (hrep : e.Representable)
    (hzero : ∀ v, e.value = .string v → Char.ofNat 0 ∉ v) :
    decodeRow (bindRow e) = .entry e := by
  obtain ⟨ts, value⟩ := e
  cases value with
  | double bits => rfl
  | int value =>
    have hr : -(2 : Int) ^ 31 ≤ value ∧ value < (2 : Int) ^ 31 := hrep
    have : decodeRow (bindRow ⟨ts, .int value⟩) = .entry ⟨ts, .int (toInt32 value)⟩ := rfl
    rw [this, toInt32_of_range hr.1 hr.2]
  | bool value => cases value <;> rfl
  | string value =>
    have hr : value.length = 50 := hrep
    have hz := hzero value rfl
    have : decodeRow (bindRow ⟨ts, .string value⟩) =
        .entry (HistoryEntry.mkString ts (cString (cString value))) := rfl
    rw [this, cString_of_no_zero hz, cString_of_no_zero hz,
      HistoryEntry.mkString_of_length ts hr]

/-- C12 at a failing input.  The text record built from the three characters `a`, zero,
`b` is a well-formed record of 50 characters, yet the row `flush` writes for it holds only
the text before the zero character, and `retrieve` reads that row back as a different
record: the one built from the single character `a`. -/
theorem roundtrip_text_with_zero :
    (HistoryEntry.mkString 1 textWithZero).Representable ∧
    (bindRow (HistoryEntry.mkString 1 textWithZero)).value = .text [Char.ofNat 97] ∧
    decodeRow (bindRow (HistoryEntry.mkString 1 textWithZero)) =
      .entry (HistoryEntry.mkString 1 [Char.ofNat 97]) ∧
    decodeRow (bindRow (HistoryEntry.mkString 1 textWithZero)) ≠
      .entry (HistoryEntry.mkString 1 textWithZero) := by
  refine ⟨?_, ?_, ?_, ?_⟩
  · show (_ : List Char).length = 50
    decide
  · decide
  · decide
  · decide

namespace CircularBuffer

variable {T : Type}

/-- C16. Ring representation invariant: in every state reached from a new buffer of
capacity at least one by `push` and `pop` calls, `head` and `tail` are below the
capacity, `tail = (head + size) % capacity`, the backing vector has `capacity` slots, and
every slot `(head + i) % capacity` with `i < size` holds a record, which is the one
`at(i)` returns: `at(i)` never reads an empty slot. -/
theorem representation_invariant (cap : Nat) (hcap : 1 ≤ cap) (ops : List (Op T)) :
    ((new cap).run ops).head < ((new cap).run ops).capacity ∧
    ((new cap).run ops).tail < ((new cap).run ops).capacity ∧
    ((new cap).run ops).tail =
      (((new cap).run ops).head + ((new cap).run ops).size) % ((new cap).run ops).capacity ∧
    ((new cap).run ops).buffer.length = ((new cap).run ops).capacity ∧
    ∀ i, i < ((new cap).run ops).size → ∃ r : T,
      ((new cap).run ops).buffer.getD
        ((((new cap).run ops).head + i) % ((new cap).run ops).capacity) none = some r ∧
      ((new cap).run ops).atIndex i = .ok r := by
  obtain ⟨l, hl⟩ := (holds_new (T := T) cap hcap).after_run ops
  refine ⟨hl.head_lt, ?_, hl.tail_eq, hl.length_buffer, ?_⟩
  · rw [hl.tail_eq]; exact Nat.mod_lt _ hl.cap_pos
  · intro i hi
    have hi' : i < l.length := by rw [← hl.size_eq]; exact hi
    exact ⟨l.get ⟨i, hi'⟩, hl.slot i hi', hl.atIndex_lt i hi'⟩

/-- Witness of C16: a buffer of capacity 3 after pushes that wrap around and a pop. -/
theorem representation_invariant_witness :
    ((new 3).run [Op.push 1, Op.push 2, Op.push 3, Op.push 4, Op.pop]).head <
      ((new 3).run [Op.push 1, Op.push 2, Op.push 3, Op.push 4, Op.pop]).capacity ∧
    ((new 3).run [Op.push 1, Op.push 2, Op.push 3, Op.push 4, Op.pop]).tail <
      ((new 3).run [Op.push 1, Op.push 2, Op.push 3, Op.push 4, Op.pop]).capacity ∧
    ((new 3).run [Op.push 1, Op.push 2, Op.push 3, Op.push 4, Op.pop]).tail =
      (((new 3).run [Op.push 1, Op.push 2, Op.push 3, Op.push 4, Op.pop]).head +
        ((new 3).run [Op.push 1, Op.push 2, Op.push 3, Op.push 4, Op.pop]).size) %
        ((new 3).run [Op.push 1, Op.push 2, Op.push 3, Op.push 4, Op.pop]).capacity ∧
    ((new 3).run [Op.push 1, Op.push 2, Op.push 3, Op.push 4, Op.pop]).buffer.length =
      ((new 3).run [Op.push 1, Op.push 2, Op.push 3, Op.push 4, Op.pop]).capacity ∧
    ∀ i, i < ((new 3).run [Op.push 1, Op.push 2, Op.push 3, Op.push 4, Op.pop]).size →
      ∃ r : Nat,
        ((new 3).run [Op.push 1, Op.push 2, Op.push 3, Op.push 4, Op.pop]).buffer.getD
          ((((new 3).run [Op.push 1, Op.push 2, Op.push 3, Op.push 4, Op.pop]).head + i) %
            ((new 3).run [Op.push 1, Op.push 2, Op.push 3, Op.push 4, Op.pop]).capacity)
          none = some r ∧
        ((new 3).run [Op.push 1, Op.push 2, Op.push 3, Op.push 4, Op.pop]).atIndex i =
          .ok r :=
  representation_invariant 3 (by decide) [Op.push 1, Op.push 2, Op.push 3, Op.push 4, Op.pop]

end CircularBuffer

/-! ## Tiered store: tier failure, time trigger, watermarks -/

namespace ConcreteHistoryStorage

open CircularBuffer

variable {D : Type}

/-- A `flush` that pops at least one record and whose tier call throws. -/
theorem flush_of_tier_failure (disk : DiskStorage D) {s : ConcreteHistoryStorage D}
    {l : List HistoryEntry} (hb : Holds s.ramBuffer l) (hk : 0 < s.entriesaboutToFlush)
    (err : Error)
    (hfail : (disk.flush s.diskStorage
      (s.ramBuffer.window.take s.entriesaboutToFlush)).thrown = some err) :
    (flush disk s).thrown = some err ∧
    (flush disk s).state.totalFlushCount = s.totalFlushCount ∧
    (flush disk s).state.ramBuffer.window = s.ramBuffer.window.drop s.entriesaboutToFlush ∧
    (flush disk s).state.ramBuffer.size + s.entriesaboutToFlush = s.ramBuffer.size ∧
    (flush disk s).state.flushedBatches =
      s.flushedBatches ++ [s.ramBuffer.window.take s.entriesaboutToFlush] := by
  have he : s.entriesaboutToFlush = l.length - s.lowWatermarkSize := by
    rw [entriesaboutToFlush_eq, hb.size_eq]
  have hpop : (flushLoop s.entriesaboutToFlush s.ramBuffer []).2 =
      s.ramBuffer.window.take s.entriesaboutToFlush := by
    rw [(flush_batch hb).1, hb.window_eq, he, List.map_take]
  have hlen : (s.ramBuffer.window.take s.entriesaboutToFlush).length = s.entriesaboutToFlush := by
    rw [hb.window_eq, List.length_take, List.length_map, he]; omega
  have hne : (s.ramBuffer.window.take s.entriesaboutToFlush).isEmpty = false := by
    cases hw : s.ramBuffer.window.take s.entriesaboutToFlush with
    | nil => rw [hw] at hlen; simp at hlen; omega
    | cons x xs => rfl
  have hb' := flush_holds disk hb
  refine ⟨?_, ?_, ?_, ?_, ?_⟩
  · unfold flush
    simp only [hpop, hne, Bool.false_eq_true, if_false, hfail]
  · unfold flush
    simp only [hpop, hne, Bool.false_eq_true, if_false, hfail]
  · rw [hb'.window_eq, hb.window_eq, he, List.map_drop]
  · rw [hb'.size_eq, hb.size_eq, List.length_drop, he]; omega
  · rw [flush_flushedBatches, hpop, hne]; rfl

/-- The first `k <= 8` calls of the end-to-end scenario, over any tier: every record is
appended and no flush is made. -/
theorem scenario_first_calls (disk : DiskStorage D) (d : D) (k : Nat) (hk : k ≤ 8) :
    Holds (run disk (new 10 d 3600 (4 / 5) (1 / 2) 0) (storeCalls (scenarioStores k))).ramBuffer
      ((scenarioStores k).map Prod.fst) ∧
    OnlyPushed (new 10 d 3600 (4 / 5) (1 / 2) 0)
      (run disk (new 10 d 3600 (4 / 5) (1 / 2) 0) (storeCalls (scenarioStores k))) := by
  have h0 : Holds (new 10 d 3600 (4 / 5) (1 / 2) 0).ramBuffer [] := holds_new 10 (by decide)
  have := run_no_flush disk (scenarioStores k) h0
    (by show (4 / 5 : ℚ) ≤ 1; norm_num)
    (by
      intro j hj
      rw [scenarioStores_length] at hj
      show ((0 + j : Nat) : ℚ) < ((10 : Nat) : ℚ) * (4 / 5)
      have : (j : ℚ) < 8 := by exact_mod_cast (show j < 8 by omega)
      simp only [Nat.zero_add]
      norm_num
      exact_mod_cast this)
    (by
      intro p hp
      rw [scenarioStores_clock k p hp]
      show (0 : Int) - 0 < 3600
      decide)
  simpa using this

theorem scenario_lowWatermarkSize (d : D) (s : ConcreteHistoryStorage D)
    (hc : SameConfig (new 10 d 3600 (4 / 5) (1 / 2) 0) s) : s.lowWatermarkSize = 5 := by
  rw [hc.lowWatermarkSize_eq]
  show ⌊((10 : Nat) : ℚ) * (1 / 2)⌋₊ = 5
  norm_num

/-- C13. Flush failure policy, on a reachable store.  (a) When `flush()` has at least one
record to evict and the tier call for that batch throws `err`, `flush()` throws `err`,
the flush count is not incremented, the tier was called once with the batch, and the
records of the batch are no longer in the ring buffer; when the high watermark is reached
every `store` call throws `err` as well and leaves the store as that `flush()` leaves it.
(b) When the first statement of a `store` call returns, the flush interval has elapsed
and the tier call of the time-triggered `flush()` throws `err`, that `store` call throws
`err`, the flush count is not incremented and the records of the batch are no longer in
the ring buffer. -/
theorem flush_failure_policy (disk : DiskStorage D) (s : ConcreteHistoryStorage D)
    (hs : Reachable disk s) (err : Error) :
    (0 < s.entriesaboutToFlush →
      (disk.flush s.diskStorage
        (s.ramBuffer.window.take s.entriesaboutToFlush)).thrown = some err →
      (flush disk s).thrown = some err ∧
      (flush disk s).state.getFlushCount = s.getFlushCount ∧
      (flush disk s).state.ramBuffer.window =
        s.ramBuffer.window.drop s.entriesaboutToFlush ∧
      (flush disk s).state.getInRamCount + s.entriesaboutToFlush = s.getInRamCount ∧
      (flush disk s).state.flushedBatches =
        s.flushedBatches ++ [s.ramBuffer.window.take s.entriesaboutToFlush] ∧
      (s.isRamBufferNearlyFull = true → ∀ (entry : HistoryEntry) (now : Int),
        store disk s entry now = { state := (flush disk s).state, thrown := some err })) ∧
    (∀ (entry : HistoryEntry) (now : Int),
      (flushIfNearlyFull disk s).thrown = none →
      (pushEntry (flushIfNearlyFull disk s).state entry).flushIntervalElapsed now = true →
      0 < (pushEntry (flushIfNearlyFull disk s).state entry).entriesaboutToFlush →
      (disk.flush (pushEntry (flushIfNearlyFull disk s).state entry).diskStorage
        ((pushEntry (flushIfNearlyFull disk s).state entry).ramBuffer.window.take
          (pushEntry (flushIfNearlyFull disk s).state entry).entriesaboutToFlush)).thrown
        = some err →
      store disk s entry now =
        { state := (flush disk (pushEntry (flushIfNearlyFull disk s).state entry)).state
          thrown := some err } ∧
      (store disk s entry now).state.getFlushCount =
        (pushEntry (flushIfNearlyFull disk s).state entry).getFlushCount ∧
      (store disk s entry now).state.ramBuffer.window =
        (pushEntry (flushIfNearlyFull disk s).state entry).ramBuffer.window.drop
          (pushEntry (flushIfNearlyFull disk s).state entry).entriesaboutToFlush) := by
  obtain ⟨l, hb⟩ := hs.holds
  constructor
  · intro hk hfail
    obtain ⟨h1, h2, h3, h4, h5⟩ := flush_of_tier_failure disk hb hk err hfail
    refine ⟨h1, h2, h3, h4, h5, ?_⟩
    intro hn entry now
    simp [store, flushIfNearlyFull, hn, h1]
  · intro entry now hr1 hel hk hfail
    obtain ⟨l1, hb1⟩ := flushIfNearlyFull_holds disk hb
    obtain ⟨l2, hb2⟩ := pushEntry_holds hb1 entry
    obtain ⟨h1, h2, h3, -, -⟩ := flush_of_tier_failure disk hb2 hk err hfail
    have hst : store disk s entry now =
        { state := (flush disk (pushEntry (flushIfNearlyFull disk s).state entry)).state
          thrown := some err } := by
      simp [store, hr1, hel, h1]
    rw [hst]
    exact ⟨rfl, h2, h3⟩

/-- Witness of C13: over a tier that always throws, the scenario store with 8 records
(high watermark reached, 3 records to evict) and the one with 6 records stored into when
the flush interval has elapsed (7 records after the push, 2 to evict). -/
theorem flush_failure_policy_witness :
    (flush failingDisk (failingStore 8)).thrown = some .persistentTierFailure ∧
    (flush failingDisk (failingStore 8)).state.getFlushCount = (failingStore 8).getFlushCount ∧
    (flush failingDisk (failingStore 8)).state.getInRamCount + 3 = 8 ∧
    (store failingDisk (failingStore 8) ⟨9, .int 0⟩ 0).thrown = some .persistentTierFailure ∧
    (store failingDisk (failingStore 6) ⟨7, .int 0⟩ 3600).thrown =
      some .persistentTierFailure := by
  have hb8 : Holds (failingStore 8).ramBuffer ((scenarioStores 8).map Prod.fst) :=
    (scenario_first_calls failingDisk () 8 (by decide)).1
  have hop8 : OnlyPushed (new 10 () 3600 (4 / 5) (1 / 2) 0) (failingStore 8) :=
    (scenario_first_calls failingDisk () 8 (by decide)).2
  have hb6 : Holds (failingStore 6).ramBuffer ((scenarioStores 6).map Prod.fst) :=
    (scenario_first_calls failingDisk () 6 (by decide)).1
  have hop6 : OnlyPushed (new 10 () 3600 (4 / 5) (1 / 2) 0) (failingStore 6) :=
    (scenario_first_calls failingDisk () 6 (by decide)).2
  have hsz8 : (failingStore 8).getInRamCount = 8 := by
    show (failingStore 8).ramBuffer.size = 8
    rw [hb8.size_eq, List.length_map, scenarioStores_length]
  have hk8 : (failingStore 8).entriesaboutToFlush = 3 := by
    rw [entriesaboutToFlush_eq, scenario_lowWatermarkSize () _ hop8.config, hb8.size_eq,
      List.length_map, scenarioStores_length]
  have hn8 : (failingStore 8).isRamBufferNearlyFull = true := by
    rw [isRamBufferNearlyFull_of_holds hb8, hop8.config.capacity, hop8.config.high,
      List.length_map, scenarioStores_length]
    show decide (((8 : Nat) : ℚ) ≥ ((10 : Nat) : ℚ) * (4 / 5)) = true
    rw [decide_eq_true_eq]; norm_num
  have hn6 : (failingStore 6).isRamBufferNearlyFull = false := by
    rw [isRamBufferNearlyFull_of_holds hb6, hop6.config.capacity, hop6.config.high,
      List.length_map, scenarioStores_length]
    show decide (((6 : Nat) : ℚ) ≥ ((10 : Nat) : ℚ) * (4 / 5)) = false
    rw [decide_eq_false_iff_not]; norm_num
  have hf6 : flushIfNearlyFull failingDisk (failingStore 6) =
      { state := failingStore 6, thrown := none } := by
    simp [flushIfNearlyFull, hn6]
  have hlt6 : (failingStore 6).ramBuffer.size < (failingStore 6).ramBuffer.capacity := by
    rw [hb6.size_eq, hop6.config.capacity, List.length_map, scenarioStores_length]
    decide
  have hb7 : Holds (pushEntry (failingStore 6) ⟨7, .int 0⟩).ramBuffer
      ((scenarioStores 6).map Prod.fst ++ [⟨7, .int 0⟩]) := hb6.push_of_lt hlt6 _
  have hk7 : (pushEntry (failingStore 6) ⟨7, .int 0⟩).entriesaboutToFlush = 2 := by
    rw [entriesaboutToFlush_eq,
      scenario_lowWatermarkSize () _ (hop6.config.trans (pushEntry_sameConfig _ _)),
      hb7.size_eq, List.length_append, List.length_map, scenarioStores_length]
    rfl
  have hel : (pushEntry (failingStore 6) ⟨7, .int 0⟩).flushIntervalElapsed 3600 = true := by
    show decide ((3600 : Int) - (failingStore 6).lastFlushTime ≥ (failingStore 6).FLUSH_INTERVAL)
      = true
    rw [hop6.time, hop6.config.interval]
    rfl
  have h8 := (flush_failure_policy failingDisk (failingStore 8)
    ⟨10, (), 3600, 4 / 5, 1 / 2, 0, _, by decide, rfl⟩ .persistentTierFailure).1
    (by rw [hk8]; decide) rfl
  have h6 := (flush_failure_policy failingDisk (failingStore 6)
    ⟨10, (), 3600, 4 / 5, 1 / 2, 0, _, by decide, rfl⟩ .persistentTierFailure).2
    ⟨7, .int 0⟩ 3600 (by rw [hf6]) (by rw [hf6]; exact hel) (by rw [hf6, hk7]; decide) rfl
  obtain ⟨a1, a2, -, a4, -, a6⟩ := h8
  refine ⟨a1, a2, ?_, ?_, ?_⟩
  · rw [hk8, hsz8] at a4; exact a4
  · rw [a6 hn8]
  · rw [h6.1]

/-- C15 (amended). Watermark invariant: the constructor stores the two ratios it is given
and no `store` or `flush` call changes them, so a store constructed with
`0 < lowWatermark < highWatermark <= 1` satisfies
`0 < LOW_WATERMARK < HIGH_WATERMARK <= 1` after any sequence of calls. -/
theorem watermark_invariant (disk : DiskStorage D) (ramCapacity : Nat) (d : D)
    (flushInterval : Int) (highWatermark lowWatermark : ℚ) (now : Int)
    (hlow : 0 < lowWatermark) (hlh : lowWatermark < highWatermark) (hhigh : highWatermark ≤ 1)
    (calls : List Call) :
    (run disk (new ramCapacity d flushInterval highWatermark lowWatermark now)
      calls).LOW_WATERMARK = lowWatermark ∧
    (run disk (new ramCapacity d flushInterval highWatermark lowWatermark now)
      calls).HIGH_WATERMARK = highWatermark ∧
    0 < (run disk (new ramCapacity d flushInterval highWatermark lowWatermark now)
      calls).LOW_WATERMARK ∧
    (run disk (new ramCapacity d flushInterval highWatermark lowWatermark now)
        calls).LOW_WATERMARK <
      (run disk (new ramCapacity d flushInterval highWatermark lowWatermark now)
        calls).HIGH_WATERMARK ∧
    (run disk (new ramCapacity d flushInterval highWatermark lowWatermark now)
      calls).HIGH_WATERMARK ≤ 1 := by
  have hc := run_sameConfig disk
    (new ramCapacity d flushInterval highWatermark lowWatermark now) calls
  have h1 : (run disk (new ramCapacity d flushInterval highWatermark lowWatermark now)
      calls).LOW_WATERMARK = lowWatermark := hc.low
  have h2 : (run disk (new ramCapacity d flushInterval highWatermark lowWatermark now)
      calls).HIGH_WATERMARK = highWatermark := hc.high
  rw [h1, h2]
  exact ⟨rfl, rfl, hlow, hlh, hhigh⟩

/-- Witness of C15 (amended): capacity 10, high 0.8, low 0.5, after eight `store` calls
and a `flush`. -/
theorem watermark_invariant_witness :
    (run listDisk (new 10 [] 3600 (4 / 5) (1 / 2) 0)
      (storeCalls (scenarioStores 8) ++ [Call.flush])).LOW_WATERMARK = 1 / 2 ∧
    (run listDisk (new 10 [] 3600 (4 / 5) (1 / 2) 0)
      (storeCalls (scenarioStores 8) ++ [Call.flush])).HIGH_WATERMARK = 4 / 5 ∧
    0 < (run listDisk (new 10 [] 3600 (4 / 5) (1 / 2) 0)
      (storeCalls (scenarioStores 8) ++ [Call.flush])).LOW_WATERMARK ∧
    (run listDisk (new 10 [] 3600 (4 / 5) (1 / 2) 0)
        (storeCalls (scenarioStores 8) ++ [Call.flush])).LOW_WATERMARK <
      (run listDisk (new 10 [] 3600 (4 / 5) (1 / 2) 0)
        (storeCalls (scenarioStores 8) ++ [Call.flush])).HIGH_WATERMARK ∧
    (run listDisk (new 10 [] 3600 (4 / 5) (1 / 2) 0)
      (storeCalls (scenarioStores 8) ++ [Call.flush])).HIGH_WATERMARK ≤ 1 :=
  watermark_invariant listDisk 10 [] 3600 (4 / 5) (1 / 2) 0 (by norm_num) (by norm_num)
    (by norm_num) _

/-- C15 as stated fails: the constructor accepts a high watermark of 0.5 with a low
watermark of 0.8 and stores both as given, so the store it produces does not satisfy
`0 < LOW_WATERMARK < HIGH_WATERMARK <= 1`. -/
theorem watermark_invariant_counterexample :
    swappedWatermarks.HIGH_WATERMARK = 1 / 2 ∧
    swappedWatermarks.LOW_WATERMARK = 4 / 5 ∧
    ¬ (0 < swappedWatermarks.LOW_WATERMARK ∧
      swappedWatermarks.LOW_WATERMARK < swappedWatermarks.HIGH_WATERMARK ∧
      swappedWatermarks.HIGH_WATERMARK ≤ 1) := by
  refine ⟨rfl, rfl, ?_⟩
  show ¬ ((0 : ℚ) < 4 / 5 ∧ (4 / 5 : ℚ) < 1 / 2 ∧ (1 / 2 : ℚ) ≤ 1)
  norm_num

end ConcreteHistoryStorage

end HistoryStorage
